import Mathlib

/-!
Shallow embedding of the space-colonization engine (`src/lib.rs` of
`space-colonization-rs`) and proofs about its claimed properties.

Modelling conventions, kept close to the source:

* The engine is generic over a point type `P` and a vector type `F`
  (Rust trait bounds `FloatPnt` / `FloatVec`).  The required geometric
  capabilities (`sqdist`, subtraction, addition, scalar scaling,
  `normalize`, the zero vector) are collected in a `Geometry` record.
  The scalar type `f32` (wrapped as `SqDist` for squared distances) is
  modelled by a linearly ordered type `S` with a unit element: the
  algorithm only ever compares scalars with the derived strict `<`,
  feeds them to the caller's geometry operations, and uses the literal
  `1.0`.  Witnesses instantiate `S := ℤ` so that concrete runs reduce.
* `Vec` indices (`NodeIdx`, attractor slots, `usize`) are modelled by `ℕ`.
* Every panic source (`unwrap`, slice indexing, the `assert!` inside
  `is_root`) is modelled by `Option`, `none` standing for the panic.
* The `while ap_idx < attractors.len()` loop of `Iterator::next` is
  modelled by `attractorLoop` with an explicit counter argument: each
  Rust loop iteration either advances `ap_idx` by one or swap-removes one
  attractor, so the measure `attractors.length - ap_idx` drops by exactly
  one per iteration; the loop is entered with that measure as the counter
  and `attractorLoop_counter_irrelevant` proves the counter plays no other
  role.
-/

namespace SpaceCol

/-- The geometric capabilities the Rust engine demands from the caller's
point/vector types (`P: FloatPnt<f32, F>`, `F: FloatVec<f32> + Zero`),
with the `f32` scalar modelled by `S`. -/
structure Geometry (S P F : Type) where
  sqdist : P → P → S
  sub : P → P → F
  padd : P → F → P
  vadd : F → F → F
  smul : F → S → F
  normalize : F → F
  zeroF : F

/-- `enum ConnectAction` of the source. -/
inductive ConnectAction : Type where
  | killAttractor : ConnectAction
  | disableFor : ℕ → ConnectAction
  | disableForConnectingRoot : ConnectAction
deriving DecidableEq, Repr

/-- `struct Attractor<P, I>` of the source; the two `SqDist` fields and
`strength` carry the scalar type `S`. -/
structure Attractor (S P I : Type) where
  attract_dist : S
  connect_dist : S
  strength : S
  position : P
  information : I
  connect_action : ConnectAction
  active_from_iteration : ℕ
  not_for_root : Option ℕ
  not_for_connecting_root : Option ℕ

/-- `Attractor::is_active_in`. -/
def Attractor.is_active_in {S P I : Type} (a : Attractor S P I) (current_iteration : ℕ) : Bool :=
  decide (a.active_from_iteration ≤ current_iteration)

/-- `Attractor::disable_until`. -/
def Attractor.disable_until {S P I : Type} (a : Attractor S P I) (iteration : ℕ) :
    Attractor S P I :=
  { a with active_from_iteration := iteration }

/-- `struct Node<P, F, I>` of the source. -/
structure Node (P F I : Type) where
  parent : ℕ
  root : ℕ
  length : ℕ
  branches : ℕ
  position : P
  growth : F
  growth_count : ℕ
  assigned_information : Option I

/-- `Node::transmit_information`. -/
def Node.transmit_information {P F I : Type} (nd : Node P F I) (information : I) : Node P F I :=
  { nd with assigned_information := some information }

/-- `Node::is_leaf`. -/
def Node.is_leaf {P F I : Type} (nd : Node P F I) : Bool :=
  decide (nd.branches = 0)

/-- `Node::is_root`: for a node of `length == 0` the source asserts
`root == parent`; `none` models that assertion failing (a panic). -/
def Node.is_root {P F I : Type} (nd : Node P F I) : Option Bool :=
  if nd.length = 0 then
    if nd.root = nd.parent then some true else none
  else
    some false

/-- `Node::is_active`. -/
def Node.is_active {P F I : Type} (nd : Node P F I) (max_length max_branches : ℕ) : Bool :=
  decide (nd.length < max_length) && decide (nd.branches < max_branches)

/-- `struct SpaceColonization<P, F, I>` of the source. -/
structure SpaceColonization (S P F I : Type) where
  nodes : List (Node P F I)
  attractors : List (Attractor S P I)
  default_attract_dist : S
  default_connect_dist : S
  move_dist : S
  next_iteration : ℕ
  max_length : ℕ
  max_branches : ℕ
  use_last_n_nodes : Option ℕ

/-- `SpaceColonization::new`. -/
def SpaceColonization.new {S P F I : Type} (default_attract_dist default_connect_dist : S)
    (max_length max_branches : ℕ) (move_dist : S) : SpaceColonization S P F I :=
  { nodes := []
    attractors := []
    default_attract_dist := default_attract_dist
    default_connect_dist := default_connect_dist
    max_length := max_length
    max_branches := max_branches
    move_dist := move_dist
    next_iteration := 0
    use_last_n_nodes := none }

/-- `SpaceColonization::add_attractor`. -/
def SpaceColonization.add_attractor {S P F I : Type} (s : SpaceColonization S P F I)
    (attractor : Attractor S P I) : SpaceColonization S P F I :=
  { s with attractors := s.attractors ++ [attractor] }

/-- `SpaceColonization::add_default_attractor`; `I::default()` is modelled
by the `Inhabited` default and the `1.0` strength by `One.one`. -/
def SpaceColonization.add_default_attractor {S P F I : Type} [One S] [Inhabited I]
    (s : SpaceColonization S P F I) (position : P) : SpaceColonization S P F I :=
  { s with
    attractors := s.attractors ++
      [{ attract_dist := s.default_attract_dist
         connect_dist := s.default_connect_dist
         strength := 1
         position := position
         information := default
         connect_action := ConnectAction.killAttractor
         active_from_iteration := 0
         not_for_root := none
         not_for_connecting_root := none }] }

/-- `SpaceColonization::add_root_node_with_information`; returns the new
root's index together with the updated engine. -/
def SpaceColonization.add_root_node_with_information {S P F I : Type} (g : Geometry S P F)
    (s : SpaceColonization S P F I) (position : P) (information : Option I) :
    ℕ × SpaceColonization S P F I :=
  let root_idx := s.nodes.length
  (root_idx,
    { s with
      nodes := s.nodes ++
        [{ parent := root_idx
           root := root_idx
           length := 0
           branches := 0
           position := position
           growth := g.zeroF
           growth_count := 0
           assigned_information := information }] })

/-- `SpaceColonization::add_root_node`. -/
def SpaceColonization.add_root_node {S P F I : Type} (g : Geometry S P F)
    (s : SpaceColonization S P F I) (position : P) : ℕ × SpaceColonization S P F I :=
  s.add_root_node_with_information g position none

/-- `SpaceColonization::get_node` (`Vec::get`). -/
def SpaceColonization.get_node {S P F I : Type} (s : SpaceColonization S P F I) (node_idx : ℕ) :
    Option (Node P F I) :=
  s.nodes[node_idx]?

/-- `Vec::swap_remove`: the removed slot receives the last element and the
vector shrinks by one.  The source only calls it with an in-range index on
a non-empty vector; on `[]` we return the list unchanged. -/
def swapRemove {α : Type} (l : List α) (i : ℕ) : List α :=
  match l.getLast? with
  | none => l
  | some last => (l.set i last).dropLast

/-- `SpaceColonization::add_leaf_node`, acting on the node arena.  `none`
models the `unwrap` panic when the parent index is out of range. -/
def add_leaf_node {S P F I : Type} (g : Geometry S P F) (nodes : List (Node P F I))
    (position : P) (parent : ℕ) : Option (List (Node P F I)) :=
  match nodes[parent]? with
  | none => none
  | some parent_node =>
    let nodes1 := nodes.set parent { parent_node with branches := parent_node.branches + 1 }
    some (nodes1 ++
      [{ parent := parent
         root := parent_node.root
         length := parent_node.length + 1
         branches := 0
         position := position
         growth := g.zeroF
         growth_count := 0
         assigned_information := none }])

/-- `SpaceColonization::visit_attractor_points`, as the list of visited
arguments. -/
def SpaceColonization.visit_attractor_points {S P F I : Type} (s : SpaceColonization S P F I) :
    List P :=
  s.attractors.map (fun a => a.position)

/-- `SpaceColonization::visit_attractors`, as the list of visited
arguments. -/
def SpaceColonization.visit_attractors {S P F I : Type} (s : SpaceColonization S P F I) :
    List (Attractor S P I) :=
  s.attractors

/-- Loop of `visit_node_segments` over the remaining nodes; `all` is the
whole arena the parent lookups index into.  `none` models a panic (either
the `assert!` inside `is_root` or the parent `unwrap`). -/
def segmentsAux {P F I : Type} (all : List (Node P F I)) :
    List (Node P F I) → Option (List (P × P))
  | [] => some []
  | nd :: rest =>
    match nd.is_root with
    | none => none
    | some true => segmentsAux all rest
    | some false =>
      match all[nd.parent]? with
      | none => none
      | some pn => (segmentsAux all rest).map (fun l => (nd.position, pn.position) :: l)

/-- `SpaceColonization::visit_node_segments`, as the list of visited
argument pairs; `none` models a panic. -/
def SpaceColonization.visit_node_segments {S P F I : Type} (s : SpaceColonization S P F I) :
    Option (List (P × P)) :=
  segmentsAux s.nodes s.nodes

/-- Loop of `visit_nodes_with_info_and_root`; `none` models a panic.  The
source tests `assigned_information.is_some()` before calling `is_root`
(`&&` short-circuits), so nodes without information cannot panic here. -/
def infoRootAux {P F I : Type} (all : List (Node P F I)) :
    List (Node P F I) → Option (List (Node P F I × Node P F I))
  | [] => some []
  | nd :: rest =>
    if nd.assigned_information.isSome then
      match nd.is_root with
      | none => none
      | some true => infoRootAux all rest
      | some false =>
        match all[nd.root]? with
        | none => none
        | some rn => (infoRootAux all rest).map (fun l => (nd, rn) :: l)
    else
      infoRootAux all rest

/-- `SpaceColonization::visit_nodes_with_info_and_root`, as the list of
visited argument pairs; `none` models a panic. -/
def SpaceColonization.visit_nodes_with_info_and_root {S P F I : Type}
    (s : SpaceColonization S P F I) : Option (List (Node P F I × Node P F I)) :=
  infoRootAux s.nodes s.nodes

/-- Loop of `visit_root_nodes`; `none` models the `assert!` panic inside
`is_root`. -/
def rootsAux {P F I : Type} : List (Node P F I) → Option (List (Node P F I))
  | [] => some []
  | nd :: rest =>
    match nd.is_root with
    | none => none
    | some true => (rootsAux rest).map (fun l => nd :: l)
    | some false => rootsAux rest

/-- `SpaceColonization::visit_root_nodes`, as the list of visited
arguments; `none` models a panic. -/
def SpaceColonization.visit_root_nodes {S P F I : Type} (s : SpaceColonization S P F I) :
    Option (List (Node P F I)) :=
  rootsAux s.nodes

/-- Outcome of the per-attractor node scan in `Iterator::next`: the first
node within connect range (with its window index), or the nearest node
within attract range, or nothing.  The node value mirrors the `&mut Node`
the source holds on to. -/
inductive ScanOut (P F I : Type) : Type where
  | connect : ℕ → Node P F I → ScanOut P F I
  | nearest : ℕ → Node P F I → ScanOut P F I
  | nothing : ScanOut P F I

/-- The guarded `continue` test on `ap.not_for_root` /
`ap.not_for_connecting_root`. -/
def deniedBy (filter : Option ℕ) (root : ℕ) : Bool :=
  match filter with
  | some deny_root => decide (deny_root = root)
  | none => false

/-- The `for node in nodes.iter_mut()` scan of `Iterator::next`
(src/lib.rs lines 343–380): skip inactive or denied nodes; break on the
first node with squared distance strictly below `connect_dist`; otherwise
track the nearest node with squared distance strictly below the running
`nearest_distance`, which starts at `attract_dist`.  `j` is the index of
the head of the remaining list inside the scan window. -/
def scanLoop {S P F I : Type} [LinearOrder S] (g : Geometry S P F) (ap : Attractor S P I)
    (max_length max_branches : ℕ) :
    List (Node P F I) → ℕ → Option (ℕ × Node P F I) → S → ScanOut P F I
  | [], _, nearest_node, _ =>
    match nearest_node with
    | some (j, nd) => ScanOut.nearest j nd
    | none => ScanOut.nothing
  | nd :: rest, j, nearest_node, nearest_distance =>
    if !(nd.is_active max_length max_branches) then
      scanLoop g ap max_length max_branches rest (j + 1) nearest_node nearest_distance
    else if deniedBy ap.not_for_root nd.root then
      scanLoop g ap max_length max_branches rest (j + 1) nearest_node nearest_distance
    else if deniedBy ap.not_for_connecting_root nd.root then
      scanLoop g ap max_length max_branches rest (j + 1) nearest_node nearest_distance
    else
      let dist := g.sqdist nd.position ap.position
      if dist < ap.connect_dist then
        ScanOut.connect j nd
      else if dist < nearest_distance then
        scanLoop g ap max_length max_branches rest (j + 1) (some (j, nd)) dist
      else
        scanLoop g ap max_length max_branches rest (j + 1) nearest_node nearest_distance

/-- Result of processing one attractor slot in the `'outer` loop:
whether `ap_idx` is advanced, and the updated collections. -/
structure AttrStep (S P F I : Type) where
  advance : Bool
  attractors : List (Attractor S P I)
  nodes : List (Node P F I)

/-- One iteration of the `'outer: while ap_idx < attractors.len()` loop of
`Iterator::next` (src/lib.rs lines 324–407): copy the attractor, skip it
if inactive, scan the window `nodes[start_index..]`, then either transmit
information and apply the connect action, or accumulate attraction on the
nearest node.  Only `KillAttractor` leaves `ap_idx` unadvanced.  The
`none` branch of the slot lookup is unreachable at the call site (guarded
by `ap_idx < attractors.len()`). -/
def processAttractor {S P F I : Type} [LinearOrder S] (g : Geometry S P F)
    (max_length max_branches current_iteration start_index ap_idx : ℕ)
    (attractors : List (Attractor S P I)) (nodes : List (Node P F I)) : AttrStep S P F I :=
  match attractors[ap_idx]? with
  | none => ⟨true, attractors, nodes⟩
  | some ap =>
    if !(ap.is_active_in current_iteration) then
      ⟨true, attractors, nodes⟩
    else
      match scanLoop g ap max_length max_branches (nodes.drop start_index) 0 none
          ap.attract_dist with
      | ScanOut.connect j cnode =>
        let nodes1 := nodes.set (start_index + j) (cnode.transmit_information ap.information)
        match ap.connect_action with
        | ConnectAction.killAttractor =>
          ⟨false, swapRemove attractors ap_idx, nodes1⟩
        | ConnectAction.disableFor iterations =>
          ⟨true, attractors.set ap_idx (ap.disable_until (current_iteration + iterations)),
            nodes1⟩
        | ConnectAction.disableForConnectingRoot =>
          ⟨true, attractors.set ap_idx { ap with not_for_connecting_root := some cnode.root },
            nodes1⟩
      | ScanOut.nearest j nnode =>
        let v := g.smul (g.normalize (g.sub ap.position nnode.position)) ap.strength
        let nodes1 := nodes.set (start_index + j)
          { nnode with growth := g.vadd nnode.growth v,
                       growth_count := nnode.growth_count + 1 }
        ⟨true, attractors, nodes1⟩
      | ScanOut.nothing => ⟨true, attractors, nodes⟩

/-- The `'outer` loop.  The first `ℕ` argument is the loop counter
described in the module docstring: the measure `attractors.length - ap_idx`
drops by exactly one per Rust iteration, the loop is entered with counter
`attractors.length` at `ap_idx = 0`, and `attractorLoop_counter_irrelevant`
shows any counter at least the measure yields the same result. -/
def attractorLoop {S P F I : Type} [LinearOrder S] (g : Geometry S P F)
    (max_length max_branches current_iteration start_index : ℕ) :
    ℕ → ℕ → List (Attractor S P I) → List (Node P F I) →
    List (Attractor S P I) × List (Node P F I)
  | 0, _, attractors, nodes => (attractors, nodes)
  | counter + 1, ap_idx, attractors, nodes =>
    if ap_idx < attractors.length then
      let r := processAttractor g max_length max_branches current_iteration start_index
        ap_idx attractors nodes
      attractorLoop g max_length max_branches current_iteration start_index counter
        (if r.advance then ap_idx + 1 else ap_idx) r.attractors r.nodes
    else
      (attractors, nodes)

/-- The `for i in start_index..num_nodes` spawning pass of `Iterator::next`
(src/lib.rs lines 410–422), iterating `count` indices upward from `i`:
each node with a positive `growth_count` spawns a leaf one `move_dist`
along its normalized accumulated growth (times the constant
`growth_factor = 1.0`), then has its growth accumulator and count reset.
`none` models a panic (slice index or the `add_leaf_node` unwrap). -/
def spawnLoop {S P F I : Type} [One S] (g : Geometry S P F) (move_dist : S) :
    ℕ → ℕ → List (Node P F I) → Option (List (Node P F I))
  | 0, _, nodes => some nodes
  | count + 1, i, nodes =>
    match nodes[i]? with
    | none => none
    | some nd =>
      if nd.growth_count > 0 then
        let growth_factor : S := 1
        let d := g.smul (g.smul (g.normalize nd.growth) move_dist) growth_factor
        let new_position := g.padd nd.position d
        match add_leaf_node g nodes new_position i with
        | none => none
        | some nodes1 =>
          match nodes1[i]? with
          | none => none
          | some nd1 =>
            spawnLoop g move_dist count (i + 1)
              (nodes1.set i { nd1 with growth := g.zeroF, growth_count := 0 })
      else
        spawnLoop g move_dist count (i + 1) nodes

/-- `Iterator::next` (src/lib.rs lines 312–427).  The Rust implementation
always returns `Some(count)`; here `none` additionally models an internal
panic, which the safety theorem below proves unreachable. -/
def next {S P F I : Type} [LinearOrder S] [One S] (g : Geometry S P F)
    (s : SpaceColonization S P F I) : Option (ℕ × SpaceColonization S P F I) :=
  let current_iteration := s.next_iteration
  let num_nodes := s.nodes.length
  let use_last_nodes := min num_nodes (s.use_last_n_nodes.getD num_nodes)
  let start_index := num_nodes - use_last_nodes
  let looped := attractorLoop g s.max_length s.max_branches current_iteration start_index
    s.attractors.length 0 s.attractors s.nodes
  match spawnLoop g s.move_dist (num_nodes - start_index) start_index looped.2 with
  | none => none
  | some nodes2 =>
    some (nodes2.length - num_nodes,
      { s with
        nodes := nodes2
        attractors := looped.1
        next_iteration := current_iteration + 1 })

/-- Engine states reachable by the public operations: construction,
`add_attractor`, `add_default_attractor`,
`add_root_node_with_information` (which `add_root_node` wraps), and a
non-panicking call of `Iterator::next`. -/
inductive Reachable {S P F I : Type} [LinearOrder S] [One S] [Inhabited I] (g : Geometry S P F) :
    SpaceColonization S P F I → Prop where
  | engine_new : ∀ ad cd ml mb mv, Reachable g (SpaceColonization.new ad cd ml mb mv)
  | add_attractor : ∀ s a, Reachable g s → Reachable g (s.add_attractor a)
  | add_default_attractor : ∀ s p, Reachable g s → Reachable g (s.add_default_attractor p)
  | add_root : ∀ s p info, Reachable g s →
      Reachable g (s.add_root_node_with_information g p info).2
  | do_step : ∀ s n s', Reachable g s → next g s = some (n, s') → Reachable g s'

/-- A concrete one-dimensional integer geometry, used for witnesses and
counterexamples: `sqdist` is the squared difference and `normalize` is the
sign. -/
def zgeo : Geometry ℤ ℤ ℤ :=
  { sqdist := fun p q => (p - q) * (p - q)
    sub := fun p q => p - q
    padd := fun p v => p + v
    vadd := fun v w => v + w
    smul := fun v c => v * c
    normalize := fun v => if v < 0 then -1 else if 0 < v then 1 else 0
    zeroF := 0 }

/-! ### Derived predicates used in the statements -/

/-- A node the scan does not skip: active, and not excluded by either of
the two root filters (the three `continue` guards of src/lib.rs lines
344–363). -/
def nodeEligible {S P F I : Type} (ap : Attractor S P I) (max_length max_branches : ℕ)
    (nd : Node P F I) : Bool :=
  nd.is_active max_length max_branches &&
    !(deniedBy ap.not_for_root nd.root) &&
    !(deniedBy ap.not_for_connecting_root nd.root)

/-- A node the scan would connect to: eligible and strictly within connect
range. -/
def connectPred {S P F I : Type} [LinearOrder S] (g : Geometry S P F) (ap : Attractor S P I)
    (max_length max_branches : ℕ) (nd : Node P F I) : Bool :=
  nodeEligible ap max_length max_branches nd &&
    decide (g.sqdist nd.position ap.position < ap.connect_dist)

/-- The tree-structure projection of a node: the fields the attractor pass
never changes. -/
def structProj {P F I : Type} (nd : Node P F I) : ℕ × ℕ × ℕ × ℕ :=
  (nd.parent, nd.root, nd.length, nd.branches)

/-- The growth-accumulator projection of a node. -/
def growthProj {P F I : Type} (nd : Node P F I) : F × ℕ :=
  (nd.growth, nd.growth_count)

/-- The number of nodes whose `parent` field equals `i`, counting a node
at index `i` itself — the literal count in the spec sentence about
`branch_count`. -/
def parentCount {P F I : Type} (nodes : List (Node P F I)) (i : ℕ) : ℕ :=
  (nodes.filter (fun nd => decide (nd.parent = i))).length

/-- Running count of entries equal to `i` at a position other than `i`,
scanning a parent list from position `idx`. -/
def childCountAux (i : ℕ) : List ℕ → ℕ → ℕ
  | [], _ => 0
  | p :: rest, idx => (if p = i ∧ idx ≠ i then 1 else 0) + childCountAux i rest (idx + 1)

/-- The number of nodes other than the node at index `i` whose `parent`
field equals `i`. -/
def childCount {P F I : Type} (nodes : List (Node P F I)) (i : ℕ) : ℕ :=
  childCountAux i (nodes.map Node.parent) 0

/-- Structural invariant of the arena, indexwise: a `length`-0 node is its
own parent and root; any other node has a parent strictly below it whose
`length` is one less and whose `root` it shares; roots never exceed the
index. -/
def NodeOk {P F I : Type} (nodes : List (Node P F I)) (i : ℕ) (nd : Node P F I) : Prop :=
  (nd.length = 0 → nd.parent = i ∧ nd.root = i) ∧
  (nd.length ≠ 0 → nd.parent < i ∧
    ∃ pn, nodes[nd.parent]? = some pn ∧ nd.length = pn.length + 1 ∧ nd.root = pn.root) ∧
  nd.root ≤ i

/-- The arena-wide structural invariant. -/
def StructOk {P F I : Type} (nodes : List (Node P F I)) : Prop :=
  ∀ i nd, nodes[i]? = some nd → NodeOk nodes i nd

/-- The branch-count invariant: `branches` counts the other nodes whose
`parent` is this node's index. -/
def BranchOk {P F I : Type} (nodes : List (Node P F I)) : Prop :=
  ∀ i nd, nodes[i]? = some nd → nd.branches = childCount nodes i

/-- Between steps every growth accumulator count is zero. -/
def GrowthZero {P F I : Type} (nodes : List (Node P F I)) : Prop :=
  ∀ nd ∈ nodes, nd.growth_count = 0

/-- The reachable-state invariant of the engine. -/
def EngineInv {S P F I : Type} (s : SpaceColonization S P F I) : Prop :=
  s.use_last_n_nodes = none ∧ StructOk s.nodes ∧ BranchOk s.nodes ∧ GrowthZero s.nodes

/-! ### List helpers -/

theorem map_set_congr {α β : Type} (f : α → β) (l : List α) (i : ℕ) (x y : α)
    (hx : l[i]? = some x) (hf : f y = f x) : (l.set i y).map f = l.map f := by
  apply List.ext_getElem?
  intro n
  rw [List.getElem?_map, List.getElem?_map, List.getElem?_set]
  by_cases hin : i = n
  · subst hin
    rw [if_pos rfl, hx]
    have hlt : i < l.length := (List.getElem?_eq_some.mp hx).1
    rw [if_pos hlt]
    simp [hf]
  · rw [if_neg hin]

theorem getElem?_map_congr {α β : Type} (f : α → β) (l1 l2 : List α)
    (h : l1.map f = l2.map f) (n : ℕ) : (l1[n]?).map f = (l2[n]?).map f := by
  rw [← List.getElem?_map, ← List.getElem?_map, h]

theorem length_eq_of_map_eq {α β : Type} (f : α → β) (l1 l2 : List α)
    (h : l1.map f = l2.map f) : l1.length = l2.length := by
  have := congrArg List.length h
  simpa using this

theorem swapRemove_length {α : Type} (l : List α) (i : ℕ) (h : l ≠ []) :
    (swapRemove l i).length = l.length - 1 := by
  obtain ⟨last, hlast⟩ := Option.isSome_iff_exists.mp (List.getLast?_isSome.mpr h)
  unfold swapRemove
  rw [hlast]
  rw [List.length_dropLast, List.length_set]

theorem set_at_boundary {α : Type} (A B : List α) (x y : α) :
    (A ++ x :: B).set A.length y = A ++ y :: B := by
  rw [List.set_append_right _ _ (le_refl _)]
  simp

theorem swapRemove_concat_perm {α : Type} (A : List α) (x : α) (i : ℕ) (hA : A.length = i) :
    (x :: swapRemove (A ++ [x]) i).Perm (A ++ [x]) := by
  subst hA
  have hset : (A ++ [x]).set A.length x = A ++ [x] := set_at_boundary A [] x x
  simp only [swapRemove, List.getLast?_concat, hset, List.dropLast_concat]
  exact (List.perm_append_singleton x A).symm

theorem swapRemove_middle_perm {α : Type} (A B : List α) (x z : α) (i : ℕ)
    (hA : A.length = i) :
    (x :: swapRemove ((A ++ x :: B) ++ [z]) i).Perm ((A ++ x :: B) ++ [z]) := by
  subst hA
  have hset : ((A ++ x :: B) ++ [z]).set A.length z = (A ++ z :: B) ++ [z] := by
    rw [List.set_append_left _ _ (by simp), set_at_boundary]
  simp only [swapRemove, List.getLast?_concat, hset, List.dropLast_concat]
  exact ((List.perm_middle.cons x).trans
    ((List.Perm.swap z x _).trans
      (((List.perm_middle.cons z).symm).trans (List.perm_append_singleton z _).symm)))

theorem swapRemove_perm {α : Type} (l : List α) (i : ℕ) (x : α) (hx : l[i]? = some x) :
    (x :: swapRemove l i).Perm l := by
  obtain ⟨hi, hget⟩ := List.getElem?_eq_some.mp hx
  have hdecomp : l = l.take i ++ x :: l.drop (i + 1) := by
    conv_lhs => rw [← List.take_append_drop i l]
    rw [← List.getElem_cons_drop l i hi, hget]
  have hlen_take : (l.take i).length = i := by
    rw [List.length_take]
    omega
  rcases List.eq_nil_or_concat (l.drop (i + 1)) with hB | ⟨B, z, hB⟩
  · rw [hB] at hdecomp
    rw [hdecomp]
    exact swapRemove_concat_perm _ x i hlen_take
  · rw [List.concat_eq_append] at hB
    rw [hB] at hdecomp
    rw [hdecomp]
    have := swapRemove_middle_perm (l.take i) B x z i hlen_take
    simpa using this

theorem childCountAux_append (i : ℕ) (ps qs : List ℕ) (idx : ℕ) :
    childCountAux i (ps ++ qs) idx = childCountAux i ps idx + childCountAux i qs (idx + ps.length) := by
  induction ps generalizing idx with
  | nil => simp [childCountAux]
  | cons p rest ih =>
    simp only [List.cons_append, childCountAux, List.append_eq]
    rw [ih (idx + 1)]
    have harith : idx + 1 + rest.length = idx + (p :: rest).length := by
      simp only [List.length_cons]
      omega
    rw [harith]
    omega

theorem childCountAux_eq_zero (i : ℕ) (ps : List ℕ) (idx : ℕ) (h : ∀ p ∈ ps, p ≠ i) :
    childCountAux i ps idx = 0 := by
  induction ps generalizing idx with
  | nil => rfl
  | cons p rest ih =>
    have hp : p ≠ i := h p (by simp)
    have hno : ¬ (p = i ∧ idx ≠ i) := fun hcon => hp hcon.1
    simp only [childCountAux, if_neg hno, Nat.zero_add]
    exact ih _ (fun q hq => h q (by simp [hq]))

/-! ### Scan-loop lemmas -/

theorem nodeEligible_true_iff {S P F I : Type} (ap : Attractor S P I) (L B : ℕ)
    (nd : Node P F I) :
    nodeEligible ap L B nd = true ↔
      nd.is_active L B = true ∧ deniedBy ap.not_for_root nd.root = false ∧
        deniedBy ap.not_for_connecting_root nd.root = false := by
  simp [nodeEligible, Bool.and_eq_true, Bool.not_eq_true', and_assoc]

theorem scanLoop_cons_skip {S P F I : Type} [LinearOrder S] (g : Geometry S P F)
    (ap : Attractor S P I) (L B : ℕ) (nd : Node P F I) (rest : List (Node P F I))
    (j : ℕ) (nearest : Option (ℕ × Node P F I)) (ndist : S)
    (h : nodeEligible ap L B nd = false) :
    scanLoop g ap L B (nd :: rest) j nearest ndist =
      scanLoop g ap L B rest (j + 1) nearest ndist := by
  cases hA : nd.is_active L B
  · simp [scanLoop, hA]
  · cases hB : deniedBy ap.not_for_root nd.root
    · cases hC : deniedBy ap.not_for_connecting_root nd.root
      · exfalso
        simp [nodeEligible, hA, hB, hC] at h
      · simp [scanLoop, hA, hB, hC]
    · simp [scanLoop, hA, hB]

theorem scanLoop_cons_connect {S P F I : Type} [LinearOrder S] (g : Geometry S P F)
    (ap : Attractor S P I) (L B : ℕ) (nd : Node P F I) (rest : List (Node P F I))
    (j : ℕ) (nearest : Option (ℕ × Node P F I)) (ndist : S)
    (hE : nodeEligible ap L B nd = true)
    (hd : g.sqdist nd.position ap.position < ap.connect_dist) :
    scanLoop g ap L B (nd :: rest) j nearest ndist = ScanOut.connect j nd := by
  obtain ⟨hA, hB, hC⟩ := (nodeEligible_true_iff ap L B nd).mp hE
  simp [scanLoop, hA, hB, hC, hd]

theorem scanLoop_cons_upd {S P F I : Type} [LinearOrder S] (g : Geometry S P F)
    (ap : Attractor S P I) (L B : ℕ) (nd : Node P F I) (rest : List (Node P F I))
    (j : ℕ) (nearest : Option (ℕ × Node P F I)) (ndist : S)
    (hE : nodeEligible ap L B nd = true)
    (hd1 : ¬ g.sqdist nd.position ap.position < ap.connect_dist)
    (hd2 : g.sqdist nd.position ap.position < ndist) :
    scanLoop g ap L B (nd :: rest) j nearest ndist =
      scanLoop g ap L B rest (j + 1) (some (j, nd)) (g.sqdist nd.position ap.position) := by
  obtain ⟨hA, hB, hC⟩ := (nodeEligible_true_iff ap L B nd).mp hE
  simp [scanLoop, hA, hB, hC, hd1, hd2]

theorem scanLoop_cons_keep {S P F I : Type} [LinearOrder S] (g : Geometry S P F)
    (ap : Attractor S P I) (L B : ℕ) (nd : Node P F I) (rest : List (Node P F I))
    (j : ℕ) (nearest : Option (ℕ × Node P F I)) (ndist : S)
    (hE : nodeEligible ap L B nd = true)
    (hd1 : ¬ g.sqdist nd.position ap.position < ap.connect_dist)
    (hd2 : ¬ g.sqdist nd.position ap.position < ndist) :
    scanLoop g ap L B (nd :: rest) j nearest ndist =
      scanLoop g ap L B rest (j + 1) nearest ndist := by
  obtain ⟨hA, hB, hC⟩ := (nodeEligible_true_iff ap L B nd).mp hE
  simp [scanLoop, hA, hB, hC, hd1, hd2]

theorem scanLoop_connect_inv {S P F I : Type} [LinearOrder S] (g : Geometry S P F)
    (ap : Attractor S P I) (L B : ℕ) :
    ∀ (ns : List (Node P F I)) (j0 : ℕ) (nearest : Option (ℕ × Node P F I)) (ndist : S)
      (j : ℕ) (nd : Node P F I),
      scanLoop g ap L B ns j0 nearest ndist = ScanOut.connect j nd →
      ∃ off, j = j0 + off ∧ ns[off]? = some nd ∧ connectPred g ap L B nd = true := by
  intro ns
  induction ns with
  | nil =>
    intro j0 nearest ndist j nd h
    rcases nearest with _ | ⟨k, nn⟩ <;> simp [scanLoop] at h
  | cons hd tl ih =>
    intro j0 nearest ndist j nd h
    by_cases hE : nodeEligible ap L B hd = true
    · by_cases hc : g.sqdist hd.position ap.position < ap.connect_dist
      · rw [scanLoop_cons_connect g ap L B hd tl j0 nearest ndist hE hc] at h
        cases h
        refine ⟨0, by omega, by simp, ?_⟩
        simp [connectPred, hE, hc]
      · by_cases hn : g.sqdist hd.position ap.position < ndist
        · rw [scanLoop_cons_upd g ap L B hd tl j0 nearest ndist hE hc hn] at h
          obtain ⟨off, hoff, hget, hpred⟩ := ih (j0 + 1) _ _ j nd h
          exact ⟨off + 1, by omega, by simpa using hget, hpred⟩
        · rw [scanLoop_cons_keep g ap L B hd tl j0 nearest ndist hE hc hn] at h
          obtain ⟨off, hoff, hget, hpred⟩ := ih (j0 + 1) _ _ j nd h
          exact ⟨off + 1, by omega, by simpa using hget, hpred⟩
    · rw [scanLoop_cons_skip g ap L B hd tl j0 nearest ndist (by simpa using hE)] at h
      obtain ⟨off, hoff, hget, hpred⟩ := ih (j0 + 1) _ _ j nd h
      exact ⟨off + 1, by omega, by simpa using hget, hpred⟩

theorem scanLoop_nearest_inv {S P F I : Type} [LinearOrder S] (g : Geometry S P F)
    (ap : Attractor S P I) (L B : ℕ) :
    ∀ (ns : List (Node P F I)) (j0 : ℕ) (nearest : Option (ℕ × Node P F I)) (ndist : S)
      (j : ℕ) (nd : Node P F I),
      scanLoop g ap L B ns j0 nearest ndist = ScanOut.nearest j nd →
      nearest = some (j, nd) ∨
        ∃ off, j = j0 + off ∧ ns[off]? = some nd ∧ nodeEligible ap L B nd = true ∧
          g.sqdist nd.position ap.position < ndist := by
  intro ns
  induction ns with
  | nil =>
    intro j0 nearest ndist j nd h
    rcases nearest with _ | ⟨k, nn⟩
    · simp [scanLoop] at h
    · simp [scanLoop] at h
      exact Or.inl (by simp [h.1, h.2])
  | cons hd tl ih =>
    intro j0 nearest ndist j nd h
    by_cases hE : nodeEligible ap L B hd = true
    · by_cases hc : g.sqdist hd.position ap.position < ap.connect_dist
      · rw [scanLoop_cons_connect g ap L B hd tl j0 nearest ndist hE hc] at h
        cases h
      · by_cases hn : g.sqdist hd.position ap.position < ndist
        · rw [scanLoop_cons_upd g ap L B hd tl j0 nearest ndist hE hc hn] at h
          rcases ih (j0 + 1) _ _ j nd h with hcase | ⟨off, hoff, hget, hel, hlt⟩
          · injection hcase with hpair
            injection hpair with hj hnd
            subst hj
            subst hnd
            exact Or.inr ⟨0, by omega, by simp, hE, hn⟩
          · exact Or.inr ⟨off + 1, by omega, by simpa using hget, hel, lt_trans hlt hn⟩
        · rw [scanLoop_cons_keep g ap L B hd tl j0 nearest ndist hE hc hn] at h
          rcases ih (j0 + 1) _ _ j nd h with hcase | ⟨off, hoff, hget, hel, hlt⟩
          · exact Or.inl hcase
          · exact Or.inr ⟨off + 1, by omega, by simpa using hget, hel, hlt⟩
    · rw [scanLoop_cons_skip g ap L B hd tl j0 nearest ndist (by simpa using hE)] at h
      rcases ih (j0 + 1) _ _ j nd h with hcase | ⟨off, hoff, hget, hel, hlt⟩
      · exact Or.inl hcase
      · exact Or.inr ⟨off + 1, by omega, by simpa using hget, hel, hlt⟩

theorem scanLoop_first {S P F I : Type} [LinearOrder S] (g : Geometry S P F)
    (ap : Attractor S P I) (L B : ℕ) :
    ∀ (ns : List (Node P F I)) (j0 : ℕ) (nearest : Option (ℕ × Node P F I)) (ndist : S)
      (j : ℕ) (nd : Node P F I),
      ns[j]? = some nd → connectPred g ap L B nd = true →
      (∀ k nd', k < j → ns[k]? = some nd' → connectPred g ap L B nd' = false) →
      scanLoop g ap L B ns j0 nearest ndist = ScanOut.connect (j0 + j) nd := by
  intro ns
  induction ns with
  | nil =>
    intro j0 nearest ndist j nd hget
    simp at hget
  | cons hd tl ih =>
    intro j0 nearest ndist j nd hget hpred hmin
    cases j with
    | zero =>
      have hhd : hd = nd := by simpa using hget
      subst hhd
      have hsplit : nodeEligible ap L B hd = true ∧
          g.sqdist hd.position ap.position < ap.connect_dist := by
        simpa [connectPred] using hpred
      rw [Nat.add_zero]
      exact scanLoop_cons_connect g ap L B hd tl j0 nearest ndist hsplit.1 hsplit.2
    | succ k =>
      have hhd : connectPred g ap L B hd = false := hmin 0 hd (Nat.succ_pos k) (by simp)
      have hmin' : ∀ m nd', m < k → tl[m]? = some nd' → connectPred g ap L B nd' = false := by
        intro m nd' hm hget'
        exact hmin (m + 1) nd' (by omega) (by simpa using hget')
      have hget' : tl[k]? = some nd := by simpa using hget
      by_cases hE : nodeEligible ap L B hd = true
      · have hc : ¬ g.sqdist hd.position ap.position < ap.connect_dist := by
          intro hcon
          rw [connectPred, hE, Bool.true_and] at hhd
          exact absurd (decide_eq_true hcon) (by simp [hhd])
        by_cases hn : g.sqdist hd.position ap.position < ndist
        · rw [scanLoop_cons_upd g ap L B hd tl j0 nearest ndist hE hc hn]
          have := ih (j0 + 1) (some (j0, hd)) (g.sqdist hd.position ap.position) k nd hget' hpred hmin'
          rw [this]
          congr 1
          omega
        · rw [scanLoop_cons_keep g ap L B hd tl j0 nearest ndist hE hc hn]
          have := ih (j0 + 1) nearest ndist k nd hget' hpred hmin'
          rw [this]
          congr 1
          omega
      · rw [scanLoop_cons_skip g ap L B hd tl j0 nearest ndist (by simpa using hE)]
        have := ih (j0 + 1) nearest ndist k nd hget' hpred hmin'
        rw [this]
        congr 1
        omega

/-! ### Per-attractor processing lemmas -/

theorem processAttractor_oob {S P F I : Type} [LinearOrder S] (g : Geometry S P F)
    (L B cur st ap_idx : ℕ) (attractors : List (Attractor S P I)) (nodes : List (Node P F I))
    (hap : attractors[ap_idx]? = none) :
    processAttractor g L B cur st ap_idx attractors nodes = ⟨true, attractors, nodes⟩ := by
  unfold processAttractor
  rw [hap]

theorem processAttractor_inactive {S P F I : Type} [LinearOrder S] (g : Geometry S P F)
    (L B cur st ap_idx : ℕ) (attractors : List (Attractor S P I)) (nodes : List (Node P F I))
    (ap : Attractor S P I) (hap : attractors[ap_idx]? = some ap)
    (hact : ap.is_active_in cur = false) :
    processAttractor g L B cur st ap_idx attractors nodes = ⟨true, attractors, nodes⟩ := by
  unfold processAttractor
  rw [hap]
  simp [hact]

theorem processAttractor_nothing {S P F I : Type} [LinearOrder S] (g : Geometry S P F)
    (L B cur st ap_idx : ℕ) (attractors : List (Attractor S P I)) (nodes : List (Node P F I))
    (ap : Attractor S P I) (hap : attractors[ap_idx]? = some ap)
    (hact : ap.is_active_in cur = true)
    (hscan : scanLoop g ap L B (nodes.drop st) 0 none ap.attract_dist = ScanOut.nothing) :
    processAttractor g L B cur st ap_idx attractors nodes = ⟨true, attractors, nodes⟩ := by
  unfold processAttractor
  rw [hap]
  simp [hact, hscan]

theorem processAttractor_nearest {S P F I : Type} [LinearOrder S] (g : Geometry S P F)
    (L B cur st ap_idx : ℕ) (attractors : List (Attractor S P I)) (nodes : List (Node P F I))
    (ap : Attractor S P I) (j : ℕ) (nnode : Node P F I)
    (hap : attractors[ap_idx]? = some ap)
    (hact : ap.is_active_in cur = true)
    (hscan : scanLoop g ap L B (nodes.drop st) 0 none ap.attract_dist =
      ScanOut.nearest j nnode) :
    processAttractor g L B cur st ap_idx attractors nodes =
      ⟨true, attractors,
        nodes.set (st + j)
          { nnode with
            growth := g.vadd nnode.growth
              (g.smul (g.normalize (g.sub ap.position nnode.position)) ap.strength),
            growth_count := nnode.growth_count + 1 }⟩ := by
  unfold processAttractor
  rw [hap]
  simp [hact, hscan]

theorem processAttractor_connect_kill {S P F I : Type} [LinearOrder S] (g : Geometry S P F)
    (L B cur st ap_idx : ℕ) (attractors : List (Attractor S P I)) (nodes : List (Node P F I))
    (ap : Attractor S P I) (j : ℕ) (cnode : Node P F I)
    (hap : attractors[ap_idx]? = some ap)
    (hact : ap.is_active_in cur = true)
    (hscan : scanLoop g ap L B (nodes.drop st) 0 none ap.attract_dist =
      ScanOut.connect j cnode)
    (haction : ap.connect_action = ConnectAction.killAttractor) :
    processAttractor g L B cur st ap_idx attractors nodes =
      ⟨false, swapRemove attractors ap_idx,
        nodes.set (st + j) (cnode.transmit_information ap.information)⟩ := by
  unfold processAttractor
  rw [hap]
  simp [hact, hscan, haction]

theorem processAttractor_connect_disable {S P F I : Type} [LinearOrder S] (g : Geometry S P F)
    (L B cur st ap_idx : ℕ) (attractors : List (Attractor S P I)) (nodes : List (Node P F I))
    (ap : Attractor S P I) (j : ℕ) (cnode : Node P F I) (k : ℕ)
    (hap : attractors[ap_idx]? = some ap)
    (hact : ap.is_active_in cur = true)
    (hscan : scanLoop g ap L B (nodes.drop st) 0 none ap.attract_dist =
      ScanOut.connect j cnode)
    (haction : ap.connect_action = ConnectAction.disableFor k) :
    processAttractor g L B cur st ap_idx attractors nodes =
      ⟨true, attractors.set ap_idx (ap.disable_until (cur + k)),
        nodes.set (st + j) (cnode.transmit_information ap.information)⟩ := by
  unfold processAttractor
  rw [hap]
  simp [hact, hscan, haction]

theorem processAttractor_connect_disable_root {S P F I : Type} [LinearOrder S]
    (g : Geometry S P F)
    (L B cur st ap_idx : ℕ) (attractors : List (Attractor S P I)) (nodes : List (Node P F I))
    (ap : Attractor S P I) (j : ℕ) (cnode : Node P F I)
    (hap : attractors[ap_idx]? = some ap)
    (hact : ap.is_active_in cur = true)
    (hscan : scanLoop g ap L B (nodes.drop st) 0 none ap.attract_dist =
      ScanOut.connect j cnode)
    (haction : ap.connect_action = ConnectAction.disableForConnectingRoot) :
    processAttractor g L B cur st ap_idx attractors nodes =
      ⟨true, attractors.set ap_idx { ap with not_for_connecting_root := some cnode.root },
        nodes.set (st + j) (cnode.transmit_information ap.information)⟩ := by
  unfold processAttractor
  rw [hap]
  simp [hact, hscan, haction]

theorem processAttractor_nodes_length {S P F I : Type} [LinearOrder S] (g : Geometry S P F)
    (L B cur st ap_idx : ℕ) (attractors : List (Attractor S P I)) (nodes : List (Node P F I)) :
    (processAttractor g L B cur st ap_idx attractors nodes).nodes.length = nodes.length := by
  cases hap : attractors[ap_idx]? with
  | none => rw [processAttractor_oob g L B cur st ap_idx attractors nodes hap]
  | some ap =>
    cases hact : ap.is_active_in cur with
    | false => rw [processAttractor_inactive g L B cur st ap_idx attractors nodes ap hap hact]
    | true =>
      cases hscan : scanLoop g ap L B (nodes.drop st) 0 none ap.attract_dist with
      | connect j cnode =>
        cases haction : ap.connect_action with
        | killAttractor =>
          rw [processAttractor_connect_kill g L B cur st ap_idx attractors nodes ap j cnode
            hap hact hscan haction]
          simp
        | disableFor k =>
          rw [processAttractor_connect_disable g L B cur st ap_idx attractors nodes ap j cnode
            k hap hact hscan haction]
          simp
        | disableForConnectingRoot =>
          rw [processAttractor_connect_disable_root g L B cur st ap_idx attractors nodes ap j
            cnode hap hact hscan haction]
          simp
      | nearest j nnode =>
        rw [processAttractor_nearest g L B cur st ap_idx attractors nodes ap j nnode
          hap hact hscan]
        simp
      | nothing =>
        rw [processAttractor_nothing g L B cur st ap_idx attractors nodes ap hap hact hscan]

theorem connect_mem_of_scan {S P F I : Type} [LinearOrder S] (g : Geometry S P F)
    (L B st : ℕ) (ap : Attractor S P I) (nodes : List (Node P F I)) (j : ℕ)
    (cnode : Node P F I)
    (hscan : scanLoop g ap L B (nodes.drop st) 0 none ap.attract_dist =
      ScanOut.connect j cnode) :
    nodes[st + j]? = some cnode ∧ connectPred g ap L B cnode = true := by
  obtain ⟨off, hoff, hget, hpred⟩ :=
    scanLoop_connect_inv g ap L B (nodes.drop st) 0 none ap.attract_dist j cnode hscan
  have hj : j = off := by omega
  subst hj
  rw [List.getElem?_drop] at hget
  exact ⟨hget, hpred⟩

theorem nearest_mem_of_scan {S P F I : Type} [LinearOrder S] (g : Geometry S P F)
    (L B st : ℕ) (ap : Attractor S P I) (nodes : List (Node P F I)) (j : ℕ)
    (nnode : Node P F I)
    (hscan : scanLoop g ap L B (nodes.drop st) 0 none ap.attract_dist =
      ScanOut.nearest j nnode) :
    nodes[st + j]? = some nnode ∧ nodeEligible ap L B nnode = true ∧
      g.sqdist nnode.position ap.position < ap.attract_dist := by
  rcases scanLoop_nearest_inv g ap L B (nodes.drop st) 0 none ap.attract_dist j nnode hscan
    with hcase | ⟨off, hoff, hget, hel, hlt⟩
  · cases hcase
  · have hj : j = off := by omega
    subst hj
    rw [List.getElem?_drop] at hget
    exact ⟨hget, hel, hlt⟩

theorem processAttractor_structProj {S P F I : Type} [LinearOrder S] (g : Geometry S P F)
    (L B cur st ap_idx : ℕ) (attractors : List (Attractor S P I)) (nodes : List (Node P F I)) :
    (processAttractor g L B cur st ap_idx attractors nodes).nodes.map structProj =
      nodes.map structProj := by
  cases hap : attractors[ap_idx]? with
  | none => rw [processAttractor_oob g L B cur st ap_idx attractors nodes hap]
  | some ap =>
    cases hact : ap.is_active_in cur with
    | false => rw [processAttractor_inactive g L B cur st ap_idx attractors nodes ap hap hact]
    | true =>
      cases hscan : scanLoop g ap L B (nodes.drop st) 0 none ap.attract_dist with
      | connect j cnode =>
        have hmem := (connect_mem_of_scan g L B st ap nodes j cnode hscan).1
        have hcongr := map_set_congr structProj nodes (st + j)
          cnode (cnode.transmit_information ap.information) hmem rfl
        cases haction : ap.connect_action with
        | killAttractor =>
          rw [processAttractor_connect_kill g L B cur st ap_idx attractors nodes ap j cnode
            hap hact hscan haction]
          exact hcongr
        | disableFor k =>
          rw [processAttractor_connect_disable g L B cur st ap_idx attractors nodes ap j cnode
            k hap hact hscan haction]
          exact hcongr
        | disableForConnectingRoot =>
          rw [processAttractor_connect_disable_root g L B cur st ap_idx attractors nodes ap j
            cnode hap hact hscan haction]
          exact hcongr
      | nearest j nnode =>
        have hmem := (nearest_mem_of_scan g L B st ap nodes j nnode hscan).1
        rw [processAttractor_nearest g L B cur st ap_idx attractors nodes ap j nnode
          hap hact hscan]
        exact map_set_congr structProj nodes (st + j) nnode _ hmem rfl
      | nothing =>
        rw [processAttractor_nothing g L B cur st ap_idx attractors nodes ap hap hact hscan]

theorem processAttractor_attractors_length {S P F I : Type} [LinearOrder S] (g : Geometry S P F)
    (L B cur st ap_idx : ℕ) (attractors : List (Attractor S P I)) (nodes : List (Node P F I)) :
    ((processAttractor g L B cur st ap_idx attractors nodes).advance = true ∧
      (processAttractor g L B cur st ap_idx attractors nodes).attractors.length =
        attractors.length) ∨
    ((processAttractor g L B cur st ap_idx attractors nodes).advance = false ∧
      ap_idx < attractors.length ∧
      (processAttractor g L B cur st ap_idx attractors nodes).attractors.length + 1 =
        attractors.length) := by
  cases hap : attractors[ap_idx]? with
  | none =>
    rw [processAttractor_oob g L B cur st ap_idx attractors nodes hap]
    exact Or.inl ⟨rfl, rfl⟩
  | some ap =>
    have hlt : ap_idx < attractors.length := (List.getElem?_eq_some.mp hap).1
    have hne : attractors ≠ [] := by
      intro hcon
      rw [hcon] at hlt
      simp at hlt
    cases hact : ap.is_active_in cur with
    | false =>
      rw [processAttractor_inactive g L B cur st ap_idx attractors nodes ap hap hact]
      exact Or.inl ⟨rfl, rfl⟩
    | true =>
      cases hscan : scanLoop g ap L B (nodes.drop st) 0 none ap.attract_dist with
      | connect j cnode =>
        cases haction : ap.connect_action with
        | killAttractor =>
          rw [processAttractor_connect_kill g L B cur st ap_idx attractors nodes ap j cnode
            hap hact hscan haction]
          refine Or.inr ⟨rfl, hlt, ?_⟩
          rw [swapRemove_length attractors ap_idx hne]
          omega
        | disableFor k =>
          rw [processAttractor_connect_disable g L B cur st ap_idx attractors nodes ap j cnode
            k hap hact hscan haction]
          exact Or.inl ⟨rfl, by simp⟩
        | disableForConnectingRoot =>
          rw [processAttractor_connect_disable_root g L B cur st ap_idx attractors nodes ap j
            cnode hap hact hscan haction]
          exact Or.inl ⟨rfl, by simp⟩
      | nearest j nnode =>
        rw [processAttractor_nearest g L B cur st ap_idx attractors nodes ap j nnode
          hap hact hscan]
        exact Or.inl ⟨rfl, rfl⟩
      | nothing =>
        rw [processAttractor_nothing g L B cur st ap_idx attractors nodes ap hap hact hscan]
        exact Or.inl ⟨rfl, rfl⟩

/-! ### Attractor-loop lemmas -/

theorem attractorLoop_succ_lt {S P F I : Type} [LinearOrder S] (g : Geometry S P F)
    (L B cur st counter ap_idx : ℕ) (attractors : List (Attractor S P I))
    (nodes : List (Node P F I)) (h : ap_idx < attractors.length) :
    attractorLoop g L B cur st (counter + 1) ap_idx attractors nodes =
      attractorLoop g L B cur st counter
        (if (processAttractor g L B cur st ap_idx attractors nodes).advance then ap_idx + 1
          else ap_idx)
        (processAttractor g L B cur st ap_idx attractors nodes).attractors
        (processAttractor g L B cur st ap_idx attractors nodes).nodes := by
  simp only [attractorLoop, if_pos h]

theorem attractorLoop_succ_ge {S P F I : Type} [LinearOrder S] (g : Geometry S P F)
    (L B cur st counter ap_idx : ℕ) (attractors : List (Attractor S P I))
    (nodes : List (Node P F I)) (h : ¬ ap_idx < attractors.length) :
    attractorLoop g L B cur st (counter + 1) ap_idx attractors nodes = (attractors, nodes) := by
  simp only [attractorLoop, if_neg h]

theorem attractorLoop_nodes_length {S P F I : Type} [LinearOrder S] (g : Geometry S P F)
    (L B cur st : ℕ) :
    ∀ (counter ap_idx : ℕ) (attractors : List (Attractor S P I)) (nodes : List (Node P F I)),
      ((attractorLoop g L B cur st counter ap_idx attractors nodes).2).length = nodes.length := by
  intro counter
  induction counter with
  | zero => intro ap_idx attractors nodes; rfl
  | succ c ih =>
    intro ap_idx attractors nodes
    by_cases h : ap_idx < attractors.length
    · rw [attractorLoop_succ_lt g L B cur st c ap_idx attractors nodes h]
      rw [ih]
      exact processAttractor_nodes_length g L B cur st ap_idx attractors nodes
    · rw [attractorLoop_succ_ge g L B cur st c ap_idx attractors nodes h]

theorem attractorLoop_structProj {S P F I : Type} [LinearOrder S] (g : Geometry S P F)
    (L B cur st : ℕ) :
    ∀ (counter ap_idx : ℕ) (attractors : List (Attractor S P I)) (nodes : List (Node P F I)),
      ((attractorLoop g L B cur st counter ap_idx attractors nodes).2).map structProj =
        nodes.map structProj := by
  intro counter
  induction counter with
  | zero => intro ap_idx attractors nodes; rfl
  | succ c ih =>
    intro ap_idx attractors nodes
    by_cases h : ap_idx < attractors.length
    · rw [attractorLoop_succ_lt g L B cur st c ap_idx attractors nodes h]
      rw [ih]
      exact processAttractor_structProj g L B cur st ap_idx attractors nodes
    · rw [attractorLoop_succ_ge g L B cur st c ap_idx attractors nodes h]

theorem attractorLoop_eq_measure {S P F I : Type} [LinearOrder S] (g : Geometry S P F)
    (L B cur st : ℕ) :
    ∀ (c ap_idx : ℕ) (attractors : List (Attractor S P I)) (nodes : List (Node P F I)),
      attractors.length - ap_idx ≤ c →
      attractorLoop g L B cur st c ap_idx attractors nodes =
        attractorLoop g L B cur st (attractors.length - ap_idx) ap_idx attractors nodes := by
  intro c
  induction c with
  | zero =>
    intro ap_idx attractors nodes hle
    have h0 : attractors.length - ap_idx = 0 := by omega
    rw [h0]
  | succ c ih =>
    intro ap_idx attractors nodes hle
    by_cases h : ap_idx < attractors.length
    · obtain ⟨m, hm⟩ : ∃ m, attractors.length - ap_idx = m + 1 :=
        ⟨attractors.length - ap_idx - 1, by omega⟩
      rw [hm]
      rw [attractorLoop_succ_lt g L B cur st c ap_idx attractors nodes h]
      rw [attractorLoop_succ_lt g L B cur st m ap_idx attractors nodes h]
      rcases processAttractor_attractors_length g L B cur st ap_idx attractors nodes with
        ⟨hadv, hlen⟩ | ⟨hadv, _, hlen⟩
      · rw [hadv, if_pos rfl]
        have hmeas :
            (processAttractor g L B cur st ap_idx attractors nodes).attractors.length -
              (ap_idx + 1) = m := by omega
        rw [ih (ap_idx + 1) _ _ (by omega), hmeas]
      · rw [hadv]
        simp only [Bool.false_eq_true, if_false]
        have hmeas :
            (processAttractor g L B cur st ap_idx attractors nodes).attractors.length -
              ap_idx = m := by omega
        rw [ih ap_idx _ _ (by omega), hmeas]
    · have h0 : attractors.length - ap_idx = 0 := by omega
      rw [h0, attractorLoop_succ_ge g L B cur st c ap_idx attractors nodes h]
      rfl

theorem attractorLoop_counter_irrelevant {S P F I : Type} [LinearOrder S] (g : Geometry S P F)
    (L B cur st c1 c2 ap_idx : ℕ) (attractors : List (Attractor S P I))
    (nodes : List (Node P F I)) (h1 : attractors.length - ap_idx ≤ c1)
    (h2 : attractors.length - ap_idx ≤ c2) :
    attractorLoop g L B cur st c1 ap_idx attractors nodes =
      attractorLoop g L B cur st c2 ap_idx attractors nodes := by
  rw [attractorLoop_eq_measure g L B cur st c1 ap_idx attractors nodes h1,
    attractorLoop_eq_measure g L B cur st c2 ap_idx attractors nodes h2]

/-! ### Spawn-pass lemmas -/

/-- The leaf record `add_leaf_node` pushes for a parent `pn` at index
`parent`. -/
def leafNode {S P F I : Type} (g : Geometry S P F) (position : P) (parent : ℕ)
    (pn : Node P F I) : Node P F I :=
  { parent := parent
    root := pn.root
    length := pn.length + 1
    branches := 0
    position := position
    growth := g.zeroF
    growth_count := 0
    assigned_information := none }

theorem add_leaf_node_spec {S P F I : Type} (g : Geometry S P F) (nodes : List (Node P F I))
    (position : P) (parent : ℕ) (pn : Node P F I) (hget : nodes[parent]? = some pn) :
    add_leaf_node g nodes position parent =
      some (nodes.set parent { pn with branches := pn.branches + 1 } ++
        [leafNode g position parent pn]) := by
  unfold add_leaf_node
  rw [hget]
  rfl

theorem spawnLoop_succ_still {S P F I : Type} [One S] (g : Geometry S P F) (md : S)
    (count i : ℕ) (nodes : List (Node P F I)) (nd : Node P F I)
    (hget : nodes[i]? = some nd) (hgc : ¬ nd.growth_count > 0) :
    spawnLoop g md (count + 1) i nodes = spawnLoop g md count (i + 1) nodes := by
  simp [spawnLoop, hget, hgc]

theorem spawnLoop_succ_spawn {S P F I : Type} [One S] (g : Geometry S P F) (md : S)
    (count i : ℕ) (nodes nodes1 : List (Node P F I)) (nd nd1 : Node P F I)
    (hget : nodes[i]? = some nd) (hgc : nd.growth_count > 0)
    (hal : add_leaf_node g nodes
      (g.padd nd.position (g.smul (g.smul (g.normalize nd.growth) md) 1)) i = some nodes1)
    (hget1 : nodes1[i]? = some nd1) :
    spawnLoop g md (count + 1) i nodes =
      spawnLoop g md count (i + 1)
        (nodes1.set i { nd1 with growth := g.zeroF, growth_count := 0 }) := by
  simp [spawnLoop, hget, hal, hget1, hgc]

/-! ### Index characterizations and invariant transfer -/

theorem append_singleton_getElem {α : Type} (l : List α) (z : α) (j : ℕ) :
    (l ++ [z])[j]? = if j = l.length then some z else l[j]? := by
  by_cases hjl : j = l.length
  · subst hjl
    rw [if_pos rfl, List.getElem?_append_right (le_refl _)]
    simp
  · rw [if_neg hjl]
    by_cases hlt : j < l.length
    · rw [List.getElem?_append]
      rw [if_pos hlt]
    · have hge : l.length ≤ j := by omega
      rw [List.getElem?_append_right hge]
      have h1 : [z][j - l.length]? = none := by
        apply List.getElem?_eq_none
        simp
        omega
      have h2 : l[j]? = none := List.getElem?_eq_none hge
      rw [h1, h2]

theorem setAppendSet_getElem {α : Type} (l : List α) (i : ℕ) (x y z : α) (hi : i < l.length)
    (j : ℕ) :
    ((l.set i x ++ [z]).set i y)[j]? =
      if j = i then some y else if j = l.length then some z else l[j]? := by
  by_cases hji : j = i
  · subst hji
    rw [if_pos rfl]
    apply List.getElem?_set_self
    simp
    omega
  · rw [if_neg hji, List.getElem?_set_ne (fun h => hji h.symm)]
    rw [append_singleton_getElem]
    rw [List.length_set]
    by_cases hjl : j = l.length
    · rw [if_pos hjl, if_pos hjl]
    · rw [if_neg hjl, if_neg hjl]
      exact List.getElem?_set_ne (fun h => hji h.symm)

theorem add_leaf_node_length {S P F I : Type} (g : Geometry S P F) (nodes out : List (Node P F I))
    (position : P) (parent : ℕ) (h : add_leaf_node g nodes position parent = some out) :
    out.length = nodes.length + 1 := by
  cases hget : nodes[parent]? with
  | none =>
    unfold add_leaf_node at h
    rw [hget] at h
    cases h
  | some pn =>
    rw [add_leaf_node_spec g nodes position parent pn hget] at h
    injection h with h
    rw [← h]
    simp

theorem structProj_fields {P1 F1 I1 P2 F2 I2 : Type} (nd1 : Node P1 F1 I1)
    (nd2 : Node P2 F2 I2) (h : structProj nd1 = structProj nd2) :
    nd1.parent = nd2.parent ∧ nd1.root = nd2.root ∧ nd1.length = nd2.length ∧
      nd1.branches = nd2.branches := by
  simpa [structProj, Prod.ext_iff] using h

theorem StructOk_congr {P F I1 I2 F2 : Type} {l1 : List (Node P F I1)} {l2 : List (Node P F2 I2)}
    (h : l1.map structProj = l2.map structProj) (hS : StructOk l1) : StructOk l2 := by
  intro i nd2 hget2
  have h2 : (l1[i]?).map structProj = some (structProj nd2) := by
    rw [← List.getElem?_map, h, List.getElem?_map, hget2]
    rfl
  cases hget1 : l1[i]? with
  | none =>
    rw [hget1] at h2
    cases h2
  | some nd1 =>
    rw [hget1] at h2
    injection h2 with h2
    obtain ⟨hp, hr, hl, _⟩ := structProj_fields nd1 nd2 h2
    obtain ⟨hroot1, hrest1, hle1⟩ := hS i nd1 hget1
    refine ⟨?_, ?_, by omega⟩
    · intro h0
      have := hroot1 (by omega)
      omega
    · intro h0
      obtain ⟨hplt, pn1, hpn1, hlen1, hr1⟩ := hrest1 (by omega)
      have hpn2m : (l2[nd2.parent]?).map structProj = some (structProj pn1) := by
        rw [← List.getElem?_map, ← h, List.getElem?_map, ← hp, hpn1]
        rfl
      cases hget2p : l2[nd2.parent]? with
      | none =>
        rw [hget2p] at hpn2m
        cases hpn2m
      | some pn2 =>
        rw [hget2p] at hpn2m
        injection hpn2m with hpn2m
        obtain ⟨_, hr2, hl2, _⟩ := structProj_fields pn2 pn1 (by rw [hpn2m])
        exact ⟨by omega, pn2, rfl, by omega, by omega⟩

theorem parent_map_of_structProj {P F I1 I2 F2 : Type} {l1 : List (Node P F I1)}
    {l2 : List (Node P F2 I2)} (h : l1.map structProj = l2.map structProj) :
    l1.map Node.parent = l2.map Node.parent := by
  have := congrArg (List.map (fun t : ℕ × ℕ × ℕ × ℕ => t.1)) h
  simpa [List.map_map, Function.comp, structProj] using this

theorem BranchOk_congr {P F I1 I2 F2 : Type} {l1 : List (Node P F I1)} {l2 : List (Node P F2 I2)}
    (h : l1.map structProj = l2.map structProj) (hB : BranchOk l1) : BranchOk l2 := by
  intro i nd2 hget2
  have h2 : (l1[i]?).map structProj = some (structProj nd2) := by
    rw [← List.getElem?_map, h, List.getElem?_map, hget2]
    rfl
  cases hget1 : l1[i]? with
  | none =>
    rw [hget1] at h2
    cases h2
  | some nd1 =>
    rw [hget1] at h2
    injection h2 with h2
    obtain ⟨_, _, _, hb⟩ := structProj_fields nd1 nd2 h2
    have hcount : childCount l1 i = childCount l2 i := by
      unfold childCount
      rw [parent_map_of_structProj h]
    rw [← hb, ← hcount]
    exact hB i nd1 hget1

theorem parents_lt_of_structok {P F I : Type} (nodes : List (Node P F I))
    (hS : StructOk nodes) : ∀ p ∈ nodes.map Node.parent, p < nodes.length := by
  intro p hp
  rw [List.mem_map] at hp
  obtain ⟨nd, hmem, rfl⟩ := hp
  obtain ⟨k, hk⟩ := List.mem_iff_get?.mp hmem
  rw [List.get?_eq_getElem?] at hk
  have hkl : k < nodes.length := (List.getElem?_eq_some.mp hk).1
  obtain ⟨h1, h2, _⟩ := hS k nd hk
  by_cases h0 : nd.length = 0
  · have := (h1 h0).1
    omega
  · have := (h2 h0).1
    omega

theorem childCountAux_singleton (j p idx : ℕ) :
    childCountAux j [p] idx = if p = j ∧ idx ≠ j then 1 else 0 := by
  simp [childCountAux]

theorem structok_append_root {P F I : Type} (nodes : List (Node P F I)) (r : Node P F I)
    (hS : StructOk nodes) (hp : r.parent = nodes.length) (hr : r.root = nodes.length)
    (hl : r.length = 0) : StructOk (nodes ++ [r]) := by
  intro i nd hget
  rw [append_singleton_getElem] at hget
  by_cases hil : i = nodes.length
  · rw [if_pos hil] at hget
    injection hget with hget
    subst hget
    exact ⟨fun _ => ⟨by omega, by omega⟩, fun h0 => absurd hl h0, by omega⟩
  · rw [if_neg hil] at hget
    have hi : i < nodes.length := (List.getElem?_eq_some.mp hget).1
    obtain ⟨h1, h2, h3⟩ := hS i nd hget
    refine ⟨h1, ?_, h3⟩
    intro h0
    obtain ⟨hplt, pn, hpn, hl1, hr1⟩ := h2 h0
    refine ⟨hplt, pn, ?_, hl1, hr1⟩
    rw [append_singleton_getElem, if_neg (by omega)]
    exact hpn

theorem leafNode_parent {S P F I : Type} (g : Geometry S P F) (pos : P) (p : ℕ)
    (pn : Node P F I) : (leafNode g pos p pn).parent = p := rfl

theorem leafNode_root {S P F I : Type} (g : Geometry S P F) (pos : P) (p : ℕ)
    (pn : Node P F I) : (leafNode g pos p pn).root = pn.root := rfl

theorem leafNode_length {S P F I : Type} (g : Geometry S P F) (pos : P) (p : ℕ)
    (pn : Node P F I) : (leafNode g pos p pn).length = pn.length + 1 := rfl

theorem leafNode_branches {S P F I : Type} (g : Geometry S P F) (pos : P) (p : ℕ)
    (pn : Node P F I) : (leafNode g pos p pn).branches = 0 := rfl

theorem leafNode_growth_count {S P F I : Type} (g : Geometry S P F) (pos : P) (p : ℕ)
    (pn : Node P F I) : (leafNode g pos p pn).growth_count = 0 := rfl

theorem leafNode_info {S P F I : Type} (g : Geometry S P F) (pos : P) (p : ℕ)
    (pn : Node P F I) : (leafNode g pos p pn).assigned_information = none := rfl

theorem branchok_append_root {P F I : Type} (nodes : List (Node P F I)) (r : Node P F I)
    (hS : StructOk nodes) (hB : BranchOk nodes) (hp : r.parent = nodes.length)
    (hb : r.branches = 0) : BranchOk (nodes ++ [r]) := by
  intro i nd hget
  have hcount : ∀ j, childCount (nodes ++ [r]) j =
      childCount nodes j + childCountAux j [r.parent] (nodes.map Node.parent).length := by
    intro j
    unfold childCount
    rw [List.map_append]
    simp only [List.map_cons, List.map_nil]
    rw [childCountAux_append]
    simp
  rw [append_singleton_getElem] at hget
  by_cases hil : i = nodes.length
  · rw [if_pos hil] at hget
    injection hget with hget
    subst hget
    subst hil
    rw [hcount]
    have hz : childCount nodes nodes.length = 0 := by
      unfold childCount
      apply childCountAux_eq_zero
      intro p hpmem
      have := parents_lt_of_structok nodes hS p hpmem
      omega
    rw [hz, childCountAux_singleton,
      if_neg (fun hcon => hcon.2 (by simp))]
    omega
  · rw [if_neg hil] at hget
    rw [hcount, childCountAux_singleton,
      if_neg (by intro hcon; rw [hp] at hcon; exact hil hcon.1.symm)]
    rw [hB i nd hget]
    omega

theorem add_leaf_ok {S P F I : Type} (g : Geometry S P F) (nodes : List (Node P F I))
    (position : P) (i : ℕ) (nd : Node P F I)
    (hS : StructOk nodes) (hB : BranchOk nodes) (hget : nodes[i]? = some nd) :
    StructOk (nodes.set i { nd with branches := nd.branches + 1 } ++
        [leafNode g position i nd]) ∧
      BranchOk (nodes.set i { nd with branches := nd.branches + 1 } ++
        [leafNode g position i nd]) := by
  have hi : i < nodes.length := (List.getElem?_eq_some.mp hget).1
  have hidx : ∀ j, (nodes.set i { nd with branches := nd.branches + 1 } ++
      [leafNode g position i nd])[j]? =
      if j = nodes.length then some (leafNode g position i nd)
      else if j = i then some { nd with branches := nd.branches + 1 }
      else nodes[j]? := by
    intro j
    rw [append_singleton_getElem, List.length_set]
    by_cases hj : j = nodes.length
    · rw [if_pos hj, if_pos hj]
    · rw [if_neg hj, if_neg hj]
      by_cases hji : j = i
      · subst hji
        rw [if_pos rfl]
        exact List.getElem?_set_self (by omega)
      · rw [if_neg hji]
        exact List.getElem?_set_ne (fun hcon => hji hcon.symm)
  obtain ⟨hnd1, hnd2, hnd3⟩ := hS i nd hget
  constructor
  · -- StructOk
    intro j ndj hgetj
    rw [hidx j] at hgetj
    by_cases hj : j = nodes.length
    · rw [if_pos hj] at hgetj
      injection hgetj with hgetj
      subst hgetj
      subst hj
      refine ⟨fun h0 => absurd h0 (by rw [leafNode_length]; omega), fun _ => ?_, ?_⟩
      · rw [leafNode_length, leafNode_root, leafNode_parent]
        refine ⟨by omega, { nd with branches := nd.branches + 1 }, ?_, rfl, rfl⟩
        rw [hidx i, if_neg (by omega), if_pos rfl]
      · rw [leafNode_root]
        omega
    · rw [if_neg hj] at hgetj
      by_cases hji : j = i
      · subst hji
        rw [if_pos rfl] at hgetj
        injection hgetj with hgetj
        subst hgetj
        refine ⟨fun h0 => hnd1 h0, fun h0 => ?_, hnd3⟩
        obtain ⟨hplt, pn, hpn, hl1, hr1⟩ := hnd2 h0
        refine ⟨hplt, pn, ?_, hl1, hr1⟩
        rw [hidx nd.parent, if_neg (by omega), if_neg (by omega)]
        exact hpn
      · rw [if_neg hji] at hgetj
        have hjl : j < nodes.length := (List.getElem?_eq_some.mp hgetj).1
        obtain ⟨h1, h2, h3⟩ := hS j ndj hgetj
        refine ⟨h1, ?_, h3⟩
        intro h0
        obtain ⟨hplt, pn, hpn, hl1, hr1⟩ := h2 h0
        by_cases hpi : ndj.parent = i
        · rw [hpi, hget] at hpn
          injection hpn with hpn
          subst hpn
          refine ⟨hplt, { nd with branches := nd.branches + 1 }, ?_, hl1, hr1⟩
          rw [hidx ndj.parent, if_neg (by omega), if_pos hpi]
        · refine ⟨hplt, pn, ?_, hl1, hr1⟩
          rw [hidx ndj.parent, if_neg (by omega), if_neg hpi]
          exact hpn
  · -- BranchOk
    intro j ndj hgetj
    have hpm : (nodes.set i { nd with branches := nd.branches + 1 } ++
        [leafNode g position i nd]).map Node.parent = nodes.map Node.parent ++ [i] := by
      rw [List.map_append]
      rw [map_set_congr Node.parent nodes i nd { nd with branches := nd.branches + 1 } hget rfl]
      rfl
    have hcount : ∀ m, childCount (nodes.set i { nd with branches := nd.branches + 1 } ++
        [leafNode g position i nd]) m =
        childCount nodes m + childCountAux m [i] (nodes.map Node.parent).length := by
      intro m
      unfold childCount
      rw [hpm, childCountAux_append]
      simp
    rw [hidx j] at hgetj
    by_cases hj : j = nodes.length
    · rw [if_pos hj] at hgetj
      injection hgetj with hgetj
      subst hgetj
      subst hj
      rw [hcount]
      have hz : childCount nodes nodes.length = 0 := by
        unfold childCount
        apply childCountAux_eq_zero
        intro p hpmem
        have := parents_lt_of_structok nodes hS p hpmem
        omega
      rw [hz, childCountAux_singleton, if_neg (by intro hcon; omega), leafNode_branches]
    · rw [if_neg hj] at hgetj
      by_cases hji : j = i
      · subst hji
        rw [if_pos rfl] at hgetj
        injection hgetj with hgetj
        subst hgetj
        rw [hcount, childCountAux_singleton,
          if_pos ⟨rfl, by rw [List.length_map]; omega⟩]
        simp only
        rw [hB j nd hget]
      · rw [if_neg hji] at hgetj
        rw [hcount, childCountAux_singleton, if_neg (fun hcon => hji hcon.1.symm)]
        rw [Nat.add_zero]
        exact hB j ndj hgetj

theorem add_leaf_result_getElem_self {S P F I : Type} (g : Geometry S P F)
    (nodes : List (Node P F I)) (position : P) (i : ℕ) (nd : Node P F I)
    (hget : nodes[i]? = some nd) :
    (nodes.set i { nd with branches := nd.branches + 1 } ++
      [leafNode g position i nd])[i]? = some { nd with branches := nd.branches + 1 } := by
  have hi : i < nodes.length := (List.getElem?_eq_some.mp hget).1
  rw [append_singleton_getElem, List.length_set, if_neg (by omega)]
  exact List.getElem?_set_self hi

theorem spawnLoop_total {S P F I : Type} [One S] (g : Geometry S P F) (md : S) :
    ∀ (count i : ℕ) (nodes : List (Node P F I)), i + count ≤ nodes.length →
      ∃ nodes2, spawnLoop g md count i nodes = some nodes2 := by
  intro count
  induction count with
  | zero => intro i nodes _; exact ⟨nodes, rfl⟩
  | succ c ih =>
    intro i nodes hle
    have hi : i < nodes.length := by omega
    have hget : nodes[i]? = some nodes[i] := List.getElem?_eq_getElem hi
    by_cases hgc : nodes[i].growth_count > 0
    · have hal := add_leaf_node_spec g nodes
        (g.padd nodes[i].position (g.smul (g.smul (g.normalize nodes[i].growth) md) 1)) i
        nodes[i] hget
      have hget1 := add_leaf_result_getElem_self g nodes
        (g.padd nodes[i].position (g.smul (g.smul (g.normalize nodes[i].growth) md) 1)) i
        nodes[i] hget
      rw [spawnLoop_succ_spawn g md c i nodes _ nodes[i] _ hget hgc hal hget1]
      apply ih
      simp
      omega
    · rw [spawnLoop_succ_still g md c i nodes nodes[i] hget hgc]
      exact ih (i + 1) nodes (by omega)

theorem spawnLoop_length_ge {S P F I : Type} [One S] (g : Geometry S P F) (md : S) :
    ∀ (count i : ℕ) (nodes nodes2 : List (Node P F I)),
      spawnLoop g md count i nodes = some nodes2 → nodes.length ≤ nodes2.length := by
  intro count
  induction count with
  | zero =>
    intro i nodes nodes2 h
    injection h with h
    subst h
    exact le_refl _
  | succ c ih =>
    intro i nodes nodes2 h
    cases hget : nodes[i]? with
    | none =>
      unfold spawnLoop at h
      rw [hget] at h
      cases h
    | some nd =>
      by_cases hgc : nd.growth_count > 0
      · have hal := add_leaf_node_spec g nodes
          (g.padd nd.position (g.smul (g.smul (g.normalize nd.growth) md) 1)) i nd hget
        have hget1 := add_leaf_result_getElem_self g nodes
          (g.padd nd.position (g.smul (g.smul (g.normalize nd.growth) md) 1)) i nd hget
        rw [spawnLoop_succ_spawn g md c i nodes _ nd _ hget hgc hal hget1] at h
        have := ih _ _ _ h
        simp at this
        omega
      · rw [spawnLoop_succ_still g md c i nodes nd hget hgc] at h
        exact ih _ _ _ h

theorem spawnLoop_ok {S P F I : Type} [One S] (g : Geometry S P F) (md : S) :
    ∀ (count i : ℕ) (nodes nodes2 : List (Node P F I)),
      spawnLoop g md count i nodes = some nodes2 → StructOk nodes → BranchOk nodes →
      StructOk nodes2 ∧ BranchOk nodes2 := by
  intro count
  induction count with
  | zero =>
    intro i nodes nodes2 h hS hB
    injection h with h
    subst h
    exact ⟨hS, hB⟩
  | succ c ih =>
    intro i nodes nodes2 h hS hB
    cases hget : nodes[i]? with
    | none =>
      unfold spawnLoop at h
      rw [hget] at h
      cases h
    | some nd =>
      by_cases hgc : nd.growth_count > 0
      · have hal := add_leaf_node_spec g nodes
          (g.padd nd.position (g.smul (g.smul (g.normalize nd.growth) md) 1)) i nd hget
        have hget1 := add_leaf_result_getElem_self g nodes
          (g.padd nd.position (g.smul (g.smul (g.normalize nd.growth) md) 1)) i nd hget
        rw [spawnLoop_succ_spawn g md c i nodes _ nd _ hget hgc hal hget1] at h
        obtain ⟨hS1, hB1⟩ := add_leaf_ok g nodes
          (g.padd nd.position (g.smul (g.smul (g.normalize nd.growth) md) 1)) i nd hS hB hget
        have hproj : ((nodes.set i { nd with branches := nd.branches + 1 } ++
            [leafNode g (g.padd nd.position (g.smul (g.smul (g.normalize nd.growth) md) 1))
              i nd]).set i
            { { nd with branches := nd.branches + 1 } with
                growth := g.zeroF, growth_count := 0 }).map structProj =
            (nodes.set i { nd with branches := nd.branches + 1 } ++
              [leafNode g (g.padd nd.position (g.smul (g.smul (g.normalize nd.growth) md) 1))
                i nd]).map structProj :=
          map_set_congr structProj _ i _ _ hget1 rfl
        exact ih _ _ _ h (StructOk_congr hproj.symm hS1) (BranchOk_congr hproj.symm hB1)
      · rw [spawnLoop_succ_still g md c i nodes nd hget hgc] at h
        exact ih _ _ _ h hS hB

theorem spawnLoop_growth_zero {S P F I : Type} [One S] (g : Geometry S P F) (md : S) :
    ∀ (count i : ℕ) (nodes nodes2 : List (Node P F I)),
      spawnLoop g md count i nodes = some nodes2 →
      (∀ (j : ℕ) (nd : Node P F I), nodes[j]? = some nd → j < i → nd.growth_count = 0) →
      (∀ (j : ℕ) (nd : Node P F I), nodes[j]? = some nd → i + count ≤ j →
        nd.growth_count = 0) →
      ∀ (j : ℕ) (nd : Node P F I), nodes2[j]? = some nd → nd.growth_count = 0 := by
  intro count
  induction count with
  | zero =>
    intro i nodes nodes2 h hlow hhigh j nd hget
    injection h with h
    subst h
    by_cases hji : j < i
    · exact hlow j nd hget hji
    · exact hhigh j nd hget (by omega)
  | succ c ih =>
    intro i nodes nodes2 h hlow hhigh
    cases hget : nodes[i]? with
    | none =>
      unfold spawnLoop at h
      rw [hget] at h
      cases h
    | some nd =>
      have hi : i < nodes.length := (List.getElem?_eq_some.mp hget).1
      by_cases hgc : nd.growth_count > 0
      · have hal := add_leaf_node_spec g nodes
          (g.padd nd.position (g.smul (g.smul (g.normalize nd.growth) md) 1)) i nd hget
        have hget1 := add_leaf_result_getElem_self g nodes
          (g.padd nd.position (g.smul (g.smul (g.normalize nd.growth) md) 1)) i nd hget
        rw [spawnLoop_succ_spawn g md c i nodes _ nd _ hget hgc hal hget1] at h
        have hchar := setAppendSet_getElem nodes i { nd with branches := nd.branches + 1 }
          { { nd with branches := nd.branches + 1 } with growth := g.zeroF, growth_count := 0 }
          (leafNode g (g.padd nd.position (g.smul (g.smul (g.normalize nd.growth) md) 1)) i nd)
          hi
        apply ih (i + 1) _ nodes2 h
        · intro j ndj hgetj hji
          rw [hchar j] at hgetj
          by_cases hj1 : j = i
          · rw [if_pos hj1] at hgetj
            injection hgetj with hgetj
            rw [← hgetj]
          · rw [if_neg hj1, if_neg (by omega)] at hgetj
            exact hlow j ndj hgetj (by omega)
        · intro j ndj hgetj hji
          rw [hchar j] at hgetj
          by_cases hj1 : j = i
          · omega
          · rw [if_neg hj1] at hgetj
            by_cases hj2 : j = nodes.length
            · rw [if_pos hj2] at hgetj
              injection hgetj with hgetj
              rw [← hgetj]
              rfl
            · rw [if_neg hj2] at hgetj
              exact hhigh j ndj hgetj (by omega)
      · rw [spawnLoop_succ_still g md c i nodes nd hget hgc] at h
        apply ih (i + 1) _ nodes2 h
        · intro j ndj hgetj hji
          by_cases hj1 : j = i
          · subst hj1
            rw [hget] at hgetj
            injection hgetj with hgetj
            subst hgetj
            omega
          · exact hlow j ndj hgetj (by omega)
        · intro j ndj hgetj hji
          exact hhigh j ndj hgetj (by omega)

theorem spawnLoop_info {S P F I : Type} [One S] (g : Geometry S P F) (md : S) :
    ∀ (count i : ℕ) (nodes nodes2 : List (Node P F I)),
      spawnLoop g md count i nodes = some nodes2 →
      (∀ j, j < nodes.length →
        (nodes2[j]?).map (fun nd => nd.assigned_information) =
          (nodes[j]?).map (fun nd => nd.assigned_information)) ∧
      (∀ (j : ℕ) (ndj : Node P F I), nodes.length ≤ j → nodes2[j]? = some ndj →
        ndj.assigned_information = none) := by
  intro count
  induction count with
  | zero =>
    intro i nodes nodes2 h
    injection h with h
    subst h
    refine ⟨fun j _ => rfl, fun j ndj hle hget => ?_⟩
    have := List.getElem?_eq_none hle
    rw [this] at hget
    cases hget
  | succ c ih =>
    intro i nodes nodes2 h
    cases hget : nodes[i]? with
    | none =>
      unfold spawnLoop at h
      rw [hget] at h
      cases h
    | some nd =>
      have hi : i < nodes.length := (List.getElem?_eq_some.mp hget).1
      by_cases hgc : nd.growth_count > 0
      · have hal := add_leaf_node_spec g nodes
          (g.padd nd.position (g.smul (g.smul (g.normalize nd.growth) md) 1)) i nd hget
        have hget1 := add_leaf_result_getElem_self g nodes
          (g.padd nd.position (g.smul (g.smul (g.normalize nd.growth) md) 1)) i nd hget
        rw [spawnLoop_succ_spawn g md c i nodes _ nd _ hget hgc hal hget1] at h
        have hchar := setAppendSet_getElem nodes i { nd with branches := nd.branches + 1 }
          { { nd with branches := nd.branches + 1 } with growth := g.zeroF, growth_count := 0 }
          (leafNode g (g.padd nd.position (g.smul (g.smul (g.normalize nd.growth) md) 1)) i nd)
          hi
        obtain ⟨ih1, ih2⟩ := ih (i + 1) _ nodes2 h
        constructor
        · intro j hj
          rw [ih1 j (by simp; omega), hchar j]
          by_cases hj1 : j = i
          · subst hj1
            rw [if_pos rfl, hget]
            rfl
          · rw [if_neg hj1, if_neg (by omega)]
        · intro j ndj hle hgetj
          by_cases hj2 : j = nodes.length
          · have := ih1 j (by simp; omega)
            rw [hgetj, hchar j, if_neg (by omega), if_pos hj2] at this
            simpa [leafNode_info] using this
          · exact ih2 j ndj (by simp; omega) hgetj
      · rw [spawnLoop_succ_still g md c i nodes nd hget hgc] at h
        exact ih (i + 1) nodes nodes2 h

theorem spawnLoop_noop {S P F I : Type} [One S] (g : Geometry S P F) (md : S) :
    ∀ (count i : ℕ) (nodes : List (Node P F I)),
      (∀ (j : ℕ) (nd : Node P F I), nodes[j]? = some nd → nd.growth_count = 0) →
      i + count ≤ nodes.length →
      spawnLoop g md count i nodes = some nodes := by
  intro count
  induction count with
  | zero => intro i nodes _ _; rfl
  | succ c ih =>
    intro i nodes hz hle
    have hi : i < nodes.length := by omega
    have hget : nodes[i]? = some nodes[i] := List.getElem?_eq_getElem hi
    have hgc : ¬ nodes[i].growth_count > 0 := by
      rw [hz i nodes[i] hget]
      omega
    rw [spawnLoop_succ_still g md c i nodes nodes[i] hget hgc]
    exact ih (i + 1) nodes hz (by omega)

/-! ### Characterizing `Iterator::next` -/

theorem next_eq_match {S P F I : Type} [LinearOrder S] [One S] (g : Geometry S P F)
    (s : SpaceColonization S P F I) :
    next g s =
      match spawnLoop g s.move_dist
          (s.nodes.length -
            (s.nodes.length - min s.nodes.length (s.use_last_n_nodes.getD s.nodes.length)))
          (s.nodes.length - min s.nodes.length (s.use_last_n_nodes.getD s.nodes.length))
          ((attractorLoop g s.max_length s.max_branches s.next_iteration
            (s.nodes.length - min s.nodes.length (s.use_last_n_nodes.getD s.nodes.length))
            s.attractors.length 0 s.attractors s.nodes).2) with
      | none => none
      | some nodes2 =>
        some (nodes2.length - s.nodes.length,
          { s with
            nodes := nodes2
            attractors := (attractorLoop g s.max_length s.max_branches s.next_iteration
              (s.nodes.length - min s.nodes.length (s.use_last_n_nodes.getD s.nodes.length))
              s.attractors.length 0 s.attractors s.nodes).1
            next_iteration := s.next_iteration + 1 }) := rfl

theorem next_char {S P F I : Type} [LinearOrder S] [One S] (g : Geometry S P F)
    (s s' : SpaceColonization S P F I) (n : ℕ) (h : next g s = some (n, s')) :
    ∃ nodes2,
      spawnLoop g s.move_dist
          (s.nodes.length -
            (s.nodes.length - min s.nodes.length (s.use_last_n_nodes.getD s.nodes.length)))
          (s.nodes.length - min s.nodes.length (s.use_last_n_nodes.getD s.nodes.length))
          ((attractorLoop g s.max_length s.max_branches s.next_iteration
            (s.nodes.length - min s.nodes.length (s.use_last_n_nodes.getD s.nodes.length))
            s.attractors.length 0 s.attractors s.nodes).2) = some nodes2 ∧
      n = nodes2.length - s.nodes.length ∧
      s' = { s with
        nodes := nodes2
        attractors := (attractorLoop g s.max_length s.max_branches s.next_iteration
          (s.nodes.length - min s.nodes.length (s.use_last_n_nodes.getD s.nodes.length))
          s.attractors.length 0 s.attractors s.nodes).1
        next_iteration := s.next_iteration + 1 } := by
  rw [next_eq_match] at h
  cases hsp : spawnLoop g s.move_dist
      (s.nodes.length -
        (s.nodes.length - min s.nodes.length (s.use_last_n_nodes.getD s.nodes.length)))
      (s.nodes.length - min s.nodes.length (s.use_last_n_nodes.getD s.nodes.length))
      ((attractorLoop g s.max_length s.max_branches s.next_iteration
        (s.nodes.length - min s.nodes.length (s.use_last_n_nodes.getD s.nodes.length))
        s.attractors.length 0 s.attractors s.nodes).2) with
  | none =>
    rw [hsp] at h
    cases h
  | some nodes2 =>
    rw [hsp] at h
    injection h with h
    injection h with h1 h2
    exact ⟨nodes2, rfl, h1.symm, h2.symm⟩

theorem next_isSome {S P F I : Type} [LinearOrder S] [One S] (g : Geometry S P F)
    (s : SpaceColonization S P F I) : (next g s).isSome := by
  rw [next_eq_match]
  obtain ⟨nodes2, hsp⟩ := spawnLoop_total g s.move_dist
    (s.nodes.length -
      (s.nodes.length - min s.nodes.length (s.use_last_n_nodes.getD s.nodes.length)))
    (s.nodes.length - min s.nodes.length (s.use_last_n_nodes.getD s.nodes.length))
    ((attractorLoop g s.max_length s.max_branches s.next_iteration
      (s.nodes.length - min s.nodes.length (s.use_last_n_nodes.getD s.nodes.length))
      s.attractors.length 0 s.attractors s.nodes).2)
    (by
      rw [attractorLoop_nodes_length]
      omega)
  rw [hsp]
  rfl

/-! ### The reachable-state invariant -/

theorem growthzero_of_indexwise {P F I : Type} (nodes : List (Node P F I))
    (h : ∀ (j : ℕ) (nd : Node P F I), nodes[j]? = some nd → nd.growth_count = 0) :
    GrowthZero nodes := by
  intro nd hmem
  obtain ⟨k, hk⟩ := List.mem_iff_get?.mp hmem
  rw [List.get?_eq_getElem?] at hk
  exact h k nd hk

theorem growthzero_indexwise {P F I : Type} (nodes : List (Node P F I)) (h : GrowthZero nodes) :
    ∀ (j : ℕ) (nd : Node P F I), nodes[j]? = some nd → nd.growth_count = 0 := by
  intro j nd hget
  apply h
  rw [List.mem_iff_get?]
  exact ⟨j, by rw [List.get?_eq_getElem?, hget]⟩

theorem reachable_inv {S P F I : Type} [LinearOrder S] [One S] [Inhabited I]
    (g : Geometry S P F) (s : SpaceColonization S P F I) (h : Reachable g s) : EngineInv s := by
  induction h with
  | engine_new ad cd ml mb mv =>
    refine ⟨rfl, ?_, ?_, ?_⟩
    · intro i nd hget
      simp [SpaceColonization.new] at hget
    · intro i nd hget
      simp [SpaceColonization.new] at hget
    · intro nd hmem
      simp [SpaceColonization.new] at hmem
  | add_attractor s a hr ih => exact ih
  | add_default_attractor s p hr ih => exact ih
  | add_root s p info hr ih =>
    obtain ⟨hu, hS, hB, hz⟩ := ih
    refine ⟨hu, ?_, ?_, ?_⟩
    · exact structok_append_root s.nodes _ hS rfl rfl rfl
    · exact branchok_append_root s.nodes _ hS hB rfl rfl
    · intro nd hmem
      rcases List.mem_append.mp hmem with hold | hnew
      · exact hz nd hold
      · rw [List.mem_singleton.mp hnew]
  | do_step s n s' hr hnext ih =>
    obtain ⟨hu, hS, hB, hz⟩ := ih
    obtain ⟨nodes2, hsp, hn, hs'⟩ := next_char g s s' n hnext
    rw [hu] at hsp
    simp only [Option.getD_none, min_self, Nat.sub_self, Nat.sub_zero] at hsp
    have hS1 : StructOk (attractorLoop g s.max_length s.max_branches s.next_iteration 0
        s.attractors.length 0 s.attractors s.nodes).2 :=
      StructOk_congr (attractorLoop_structProj g s.max_length s.max_branches s.next_iteration 0
        s.attractors.length 0 s.attractors s.nodes).symm hS
    have hB1 : BranchOk (attractorLoop g s.max_length s.max_branches s.next_iteration 0
        s.attractors.length 0 s.attractors s.nodes).2 :=
      BranchOk_congr (attractorLoop_structProj g s.max_length s.max_branches s.next_iteration 0
        s.attractors.length 0 s.attractors s.nodes).symm hB
    obtain ⟨hS2, hB2⟩ := spawnLoop_ok g s.move_dist s.nodes.length 0 _ nodes2 hsp hS1 hB1
    have hz2 : ∀ (j : ℕ) (nd : Node P F I), nodes2[j]? = some nd → nd.growth_count = 0 := by
      apply spawnLoop_growth_zero g s.move_dist s.nodes.length 0 _ nodes2 hsp
      · intro j nd _ hji
        omega
      · intro j nd hget hji
        have hlt : j < ((attractorLoop g s.max_length s.max_branches s.next_iteration 0
            s.attractors.length 0 s.attractors s.nodes).2).length :=
          (List.getElem?_eq_some.mp hget).1
        rw [attractorLoop_nodes_length] at hlt
        omega
    subst hs'
    exact ⟨hu, hS2, hB2, growthzero_of_indexwise nodes2 hz2⟩

/-! ### Totality of the visitors on well-formed arenas -/

theorem structok_mem_facts {P F I : Type} (all : List (Node P F I)) (hS : StructOk all) :
    ∀ nd ∈ all, (nd.length = 0 → nd.root = nd.parent) ∧ nd.parent < all.length ∧
      nd.root < all.length := by
  intro nd hmem
  obtain ⟨k, hk⟩ := List.mem_iff_get?.mp hmem
  rw [List.get?_eq_getElem?] at hk
  have hkl : k < all.length := (List.getElem?_eq_some.mp hk).1
  obtain ⟨h1, h2, h3⟩ := hS k nd hk
  by_cases h0 : nd.length = 0
  · obtain ⟨hp, hr⟩ := h1 h0
    exact ⟨fun _ => by omega, by omega, by omega⟩
  · obtain ⟨hp, _⟩ := h2 h0
    exact ⟨fun hcon => absurd hcon h0, by omega, by omega⟩

theorem segmentsAux_total {P F I : Type} (all : List (Node P F I)) :
    ∀ rest : List (Node P F I),
      (∀ nd ∈ rest, (nd.length = 0 → nd.root = nd.parent) ∧ nd.parent < all.length) →
      ∃ out, segmentsAux all rest = some out := by
  intro rest
  induction rest with
  | nil => intro _; exact ⟨[], rfl⟩
  | cons nd rest ih =>
    intro h
    obtain ⟨h1, h2⟩ := h nd (by simp)
    obtain ⟨out, hout⟩ := ih (fun x hx => h x (by simp [hx]))
    by_cases h0 : nd.length = 0
    · have hroot : nd.is_root = some true := by
        unfold Node.is_root
        rw [if_pos h0, if_pos (h1 h0)]
      unfold segmentsAux
      rw [hroot, hout]
      exact ⟨out, rfl⟩
    · have hroot : nd.is_root = some false := by
        unfold Node.is_root
        rw [if_neg h0]
      have hpn : all[nd.parent]? = some all[nd.parent] := List.getElem?_eq_getElem h2
      unfold segmentsAux
      rw [hroot, hpn, hout]
      exact ⟨_, rfl⟩

theorem infoRootAux_total {P F I : Type} (all : List (Node P F I)) :
    ∀ rest : List (Node P F I),
      (∀ nd ∈ rest, (nd.length = 0 → nd.root = nd.parent) ∧ nd.root < all.length) →
      ∃ out, infoRootAux all rest = some out := by
  intro rest
  induction rest with
  | nil => intro _; exact ⟨[], rfl⟩
  | cons nd rest ih =>
    intro h
    obtain ⟨h1, h2⟩ := h nd (by simp)
    obtain ⟨out, hout⟩ := ih (fun x hx => h x (by simp [hx]))
    by_cases hinfo : nd.assigned_information.isSome
    · by_cases h0 : nd.length = 0
      · have hroot : nd.is_root = some true := by
          unfold Node.is_root
          rw [if_pos h0, if_pos (h1 h0)]
        unfold infoRootAux
        rw [if_pos hinfo, hroot, hout]
        exact ⟨out, rfl⟩
      · have hroot : nd.is_root = some false := by
          unfold Node.is_root
          rw [if_neg h0]
        have hrn : all[nd.root]? = some all[nd.root] := List.getElem?_eq_getElem h2
        unfold infoRootAux
        rw [if_pos hinfo, hroot, hrn, hout]
        exact ⟨_, rfl⟩
    · unfold infoRootAux
      rw [if_neg hinfo, hout]
      exact ⟨out, rfl⟩

theorem rootsAux_total {P F I : Type} :
    ∀ rest : List (Node P F I),
      (∀ nd ∈ rest, nd.length = 0 → nd.root = nd.parent) →
      ∃ out, rootsAux rest = some out := by
  intro rest
  induction rest with
  | nil => intro _; exact ⟨[], rfl⟩
  | cons nd rest ih =>
    intro h
    obtain ⟨out, hout⟩ := ih (fun x hx => h x (by simp [hx]))
    by_cases h0 : nd.length = 0
    · have hroot : nd.is_root = some true := by
        unfold Node.is_root
        rw [if_pos h0, if_pos (h nd (by simp) h0)]
      unfold rootsAux
      rw [hroot, hout]
      exact ⟨_, rfl⟩
    · have hroot : nd.is_root = some false := by
        unfold Node.is_root
        rw [if_neg h0]
      unfold rootsAux
      rw [hroot, hout]
      exact ⟨out, rfl⟩

/-! ### Concrete states for witnesses and counterexamples (integer geometry) -/

/-- A fresh engine: attract radius 100, connect radius 1, `max_length` and
`max_branches` 10, move distance 1. -/
def zEngine0 : SpaceColonization ℤ ℤ ℤ ℕ := SpaceColonization.new 100 1 10 10 1

/-- An attractor at the origin with `DisableFor(1)` as connect action. -/
def apDisable : Attractor ℤ ℤ ℕ :=
  ⟨100, 1, 1, 0, 7, ConnectAction.disableFor 1, 0, none, none⟩

/-- Engine with `apDisable` and one root node at the origin. -/
def sDisable : SpaceColonization ℤ ℤ ℤ ℕ :=
  ((zEngine0.add_attractor apDisable).add_root_node_with_information zgeo 0 none).2

/-- An attractor at the origin carrying payload `20` with the `Kill`
action. -/
def apKill : Attractor ℤ ℤ ℕ :=
  ⟨100, 1, 1, 0, 20, ConnectAction.killAttractor, 0, none, none⟩

/-- Engine with `apKill` and one root node at the origin carrying initial
payload `10`. -/
def sKill : SpaceColonization ℤ ℤ ℤ ℕ :=
  ((zEngine0.add_attractor apKill).add_root_node_with_information zgeo 0 (some 10)).2

/-- Engine with a single root node at the origin and no attractors. -/
def sRoot1 : SpaceColonization ℤ ℤ ℤ ℕ :=
  (zEngine0.add_root_node_with_information zgeo 0 none).2

/-- A bare root-shaped node at the origin. -/
def ndUnit : Node ℤ ℤ ℕ := ⟨0, 0, 0, 0, 0, 0, 0, none⟩

theorem reachable_sDisable : Reachable zgeo sDisable :=
  Reachable.add_root (zEngine0.add_attractor apDisable) 0 none
    (Reachable.add_attractor zEngine0 apDisable (Reachable.engine_new 100 1 10 10 1))

theorem reachable_sKill : Reachable zgeo sKill :=
  Reachable.add_root (zEngine0.add_attractor apKill) 0 (some 10)
    (Reachable.add_attractor zEngine0 apKill (Reachable.engine_new 100 1 10 10 1))

theorem reachable_sRoot1 : Reachable zgeo sRoot1 :=
  Reachable.add_root zEngine0 0 none (Reachable.engine_new 100 1 10 10 1)

/-! ### The claims -/

/-- C1: a single call to the step operation (`Iterator::next`) returns
exactly the number of nodes in the arena after the call minus the number
before it — equivalently, the node count before the call plus the returned
count equals the node count after. -/
theorem C1_step_count {S P F I : Type} [LinearOrder S] [One S] (g : Geometry S P F)
    (s s' : SpaceColonization S P F I) (n : ℕ) (h : next g s = some (n, s')) :
    s.nodes.length + n = s'.nodes.length := by
  obtain ⟨nodes2, hsp, hn, hs'⟩ := next_char g s s' n h
  have hlen1 := attractorLoop_nodes_length g s.max_length s.max_branches s.next_iteration
    (s.nodes.length - min s.nodes.length (s.use_last_n_nodes.getD s.nodes.length))
    s.attractors.length 0 s.attractors s.nodes
  have hge := spawnLoop_length_ge g s.move_dist
    (s.nodes.length -
      (s.nodes.length - min s.nodes.length (s.use_last_n_nodes.getD s.nodes.length)))
    (s.nodes.length - min s.nodes.length (s.use_last_n_nodes.getD s.nodes.length))
    _ nodes2 hsp
  rw [hlen1] at hge
  have hnodes : s'.nodes = nodes2 := by rw [hs']
  rw [hnodes, hn]
  omega

/-- Witness for C1 at a concrete engine: stepping the fresh engine returns
0 new nodes and leaves the arena length unchanged. -/
theorem C1_step_count_witness :
    zEngine0.nodes.length + 0 =
      ({ zEngine0 with next_iteration := 1 } : SpaceColonization ℤ ℤ ℤ ℕ).nodes.length :=
  C1_step_count zgeo zEngine0 { zEngine0 with next_iteration := 1 } 0 rfl

/-- C2: during one step, for an attractor whose scan window contains a
node within `connect_radius_sq`, the node chosen for contact is the first
eligible node in scan (arena) order with squared distance strictly below
`connect_radius_sq` — not necessarily the nearest — and the processing of
this attractor performs no attraction accumulation on any node (every
node's growth accumulator and growth count are untouched). -/
theorem C2_first_match_connect {S P F I : Type} [LinearOrder S] (g : Geometry S P F)
    (ap : Attractor S P I) (max_length max_branches current_iteration start_index ap_idx : ℕ)
    (attractors : List (Attractor S P I)) (nodes : List (Node P F I)) (j : ℕ)
    (nd : Node P F I)
    (hap : attractors[ap_idx]? = some ap)
    (hact : ap.is_active_in current_iteration = true)
    (hj : (nodes.drop start_index)[j]? = some nd)
    (hpred : connectPred g ap max_length max_branches nd = true)
    (hmin : ∀ (k : ℕ) (nd' : Node P F I), k < j → (nodes.drop start_index)[k]? = some nd' →
      connectPred g ap max_length max_branches nd' = false) :
    scanLoop g ap max_length max_branches (nodes.drop start_index) 0 none ap.attract_dist =
      ScanOut.connect j nd ∧
    ((processAttractor g max_length max_branches current_iteration start_index ap_idx
      attractors nodes).nodes).map growthProj = nodes.map growthProj := by
  have hscan := scanLoop_first g ap max_length max_branches (nodes.drop start_index) 0 none
    ap.attract_dist j nd hj hpred hmin
  rw [Nat.zero_add] at hscan
  refine ⟨hscan, ?_⟩
  have hmem := (connect_mem_of_scan g max_length max_branches start_index ap nodes j nd
    hscan).1
  have hcongr := map_set_congr growthProj nodes (start_index + j)
    nd (nd.transmit_information ap.information) hmem rfl
  cases haction : ap.connect_action with
  | killAttractor =>
    rw [processAttractor_connect_kill g max_length max_branches current_iteration start_index
      ap_idx attractors nodes ap j nd hap hact hscan haction]
    exact hcongr
  | disableFor k =>
    rw [processAttractor_connect_disable g max_length max_branches current_iteration
      start_index ap_idx attractors nodes ap j nd k hap hact hscan haction]
    exact hcongr
  | disableForConnectingRoot =>
    rw [processAttractor_connect_disable_root g max_length max_branches current_iteration
      start_index ap_idx attractors nodes ap j nd hap hact hscan haction]
    exact hcongr

/-- Witness for C2: in the engine `sKill` the single window node at the
origin is within connect range of `apKill`, the scan picks it, and no
growth fields change. -/
theorem C2_first_match_connect_witness :
    scanLoop zgeo apKill 10 10 (sKill.nodes.drop 0) 0 none apKill.attract_dist =
      ScanOut.connect 0 ⟨0, 0, 0, 0, 0, 0, 0, some 10⟩ ∧
    ((processAttractor zgeo 10 10 0 0 0 sKill.attractors sKill.nodes).nodes).map growthProj =
      sKill.nodes.map growthProj :=
  C2_first_match_connect zgeo apKill 10 10 0 0 0 sKill.attractors sKill.nodes 0
    ⟨0, 0, 0, 0, 0, 0, 0, some 10⟩ rfl rfl rfl (by decide)
    (fun k nd' hk => absurd hk (by omega))

/-- C5: both range tests are boundary-exclusive strict comparisons: a
contact is only ever made with a node of squared distance strictly below
`connect_radius_sq` (so a node exactly at the boundary never triggers a
connect action), an eligible node strictly inside connect range does
trigger, and an attraction target always has squared distance strictly
below `attract_radius_sq` (so a node exactly at that boundary receives no
attraction contribution). -/
theorem C5_strict_boundaries {S P F I : Type} [LinearOrder S] (g : Geometry S P F)
    (ap : Attractor S P I) (max_length max_branches : ℕ) :
    (∀ (ns : List (Node P F I)) (j : ℕ) (nd : Node P F I),
      scanLoop g ap max_length max_branches ns 0 none ap.attract_dist =
        ScanOut.connect j nd →
      g.sqdist nd.position ap.position < ap.connect_dist) ∧
    (∀ nd : Node P F I, nodeEligible ap max_length max_branches nd = true →
      g.sqdist nd.position ap.position < ap.connect_dist →
      scanLoop g ap max_length max_branches [nd] 0 none ap.attract_dist =
        ScanOut.connect 0 nd) ∧
    (∀ (ns : List (Node P F I)) (j : ℕ) (nd : Node P F I),
      scanLoop g ap max_length max_branches ns 0 none ap.attract_dist =
        ScanOut.nearest j nd →
      g.sqdist nd.position ap.position < ap.attract_dist) := by
  refine ⟨?_, ?_, ?_⟩
  · intro ns j nd h
    obtain ⟨off, _, _, hpred⟩ := scanLoop_connect_inv g ap max_length max_branches ns 0 none
      ap.attract_dist j nd h
    have := (Bool.and_eq_true _ _).mp hpred
    exact of_decide_eq_true this.2
  · intro nd hE hd
    exact scanLoop_cons_connect g ap max_length max_branches nd [] 0 none ap.attract_dist hE hd
  · intro ns j nd h
    rcases scanLoop_nearest_inv g ap max_length max_branches ns 0 none ap.attract_dist j nd h
      with hcase | ⟨_, _, _, _, hlt⟩
    · cases hcase
    · exact hlt

/-- Witness for C5 with the attractor `apKill` and a node at the origin:
the second conjunct applies at a concrete eligible in-range node. -/
theorem C5_strict_boundaries_witness :
    scanLoop zgeo apKill 10 10 [ndUnit] 0 none apKill.attract_dist =
      ScanOut.connect 0 ndUnit :=
  (C5_strict_boundaries zgeo apKill 10 10).2.1 ndUnit (by decide) (by decide)

/-- C3: in every reachable engine state, a node of `length` 0 has
`parent == root ==` its own index, and a node of positive `length` has a
parent index strictly below its own, `length` one more than its parent's,
and the same `root` as its parent. -/
theorem C3_tree_invariant {S P F I : Type} [LinearOrder S] [One S] [Inhabited I]
    (g : Geometry S P F) (s : SpaceColonization S P F I) (h : Reachable g s) :
    ∀ (i : ℕ) (nd : Node P F I), s.nodes[i]? = some nd →
      (nd.length = 0 → nd.parent = i ∧ nd.root = i) ∧
      (0 < nd.length → nd.parent < i ∧ ∃ pn, s.nodes[nd.parent]? = some pn ∧
        nd.length = pn.length + 1 ∧ nd.root = pn.root) := by
  intro i nd hget
  obtain ⟨_, hS, _, _⟩ := reachable_inv g s h
  obtain ⟨h1, h2, _⟩ := hS i nd hget
  exact ⟨h1, fun h0 => h2 (by omega)⟩

/-- Witness for C3 at the reachable one-root engine, instantiated at the
root node. -/
theorem C3_tree_invariant_witness :
    (ndUnit.length = 0 → ndUnit.parent = 0 ∧ ndUnit.root = 0) ∧
    (0 < ndUnit.length → ndUnit.parent < 0 ∧ ∃ pn, sRoot1.nodes[ndUnit.parent]? = some pn ∧
      ndUnit.length = pn.length + 1 ∧ ndUnit.root = pn.root) :=
  C3_tree_invariant zgeo sRoot1 reachable_sRoot1 0 ndUnit rfl

/-- C7 counterexample: in the reachable engine holding a single root node,
the root has `branches = 0` but the number of nodes whose `parent` field
equals its index is 1 (a root is its own parent), so the claim as stated
fails. -/
theorem C7_branch_count_cex :
    Reachable zgeo sRoot1 ∧
    ∃ nd, sRoot1.nodes[0]? = some nd ∧ nd.branches ≠ parentCount sRoot1.nodes 0 :=
  ⟨reachable_sRoot1, ndUnit, rfl, by decide⟩

/-- C7 (amended): in every reachable engine state, each node's
`branch_count` equals the number of nodes other than itself whose `parent`
field equals that node's index. -/
theorem C7_branch_count {S P F I : Type} [LinearOrder S] [One S] [Inhabited I]
    (g : Geometry S P F) (s : SpaceColonization S P F I) (h : Reachable g s) :
    ∀ (i : ℕ) (nd : Node P F I), s.nodes[i]? = some nd →
      nd.branches = childCount s.nodes i := by
  intro i nd hget
  exact (reachable_inv g s h).2.2.1 i nd hget

/-- Witness for C7 (amended) at the one-root engine. -/
theorem C7_branch_count_witness : ndUnit.branches = childCount sRoot1.nodes 0 :=
  C7_branch_count zgeo sRoot1 reachable_sRoot1 0 ndUnit rfl

/-- C9: on a reachable engine with no attractors and no active nodes, a
step returns 0 and changes nothing but the iteration counter: the node
arena and the attractor collection are unchanged. -/
theorem C9_noop {S P F I : Type} [LinearOrder S] [One S] [Inhabited I]
    (g : Geometry S P F) (s : SpaceColonization S P F I) (hr : Reachable g s)
    (hatt : s.attractors = [])
    (hinact : ∀ nd ∈ s.nodes, nd.is_active s.max_length s.max_branches = false) :
    next g s = some (0, { s with next_iteration := s.next_iteration + 1 }) := by
  obtain ⟨hu, _, _, hz⟩ := reachable_inv g s hr
  conv_rhs => rw [show s.attractors = ([] : List (Attractor S P I)) from hatt]
  rw [next_eq_match, hu]
  simp only [Option.getD_none, min_self, Nat.sub_self, Nat.sub_zero]
  rw [hatt]
  have hloop : attractorLoop g s.max_length s.max_branches s.next_iteration 0
      ([] : List (Attractor S P I)).length 0 [] s.nodes = ([], s.nodes) := rfl
  rw [hloop]
  have hnoop := spawnLoop_noop g s.move_dist s.nodes.length 0 s.nodes
    (growthzero_indexwise s.nodes hz) (by omega)
  rw [hnoop]
  simp

/-- Witness for C9: the fresh engine has no attractors and no nodes, and
stepping it only bumps the iteration counter. -/
theorem C9_noop_witness :
    next zgeo zEngine0 = some (0, { zEngine0 with next_iteration := 1 }) :=
  C9_noop zgeo zEngine0 (Reachable.engine_new 100 1 10 10 1) rfl
    (fun nd hmem => absurd hmem (by simp [zEngine0, SpaceColonization.new]))

/-- C10: in every reachable engine state none of the internal partial
operations can fail: the step operation never panics (the `add_leaf_node`
unwrap and the spawn-pass indexing succeed), and the three visitors that
call `is_root` (whose assertion `root == parent` holds for every
`length`-0 node) or unwrap parent/root lookups all succeed. -/
theorem C10_no_panics {S P F I : Type} [LinearOrder S] [One S] [Inhabited I]
    (g : Geometry S P F) (s : SpaceColonization S P F I) (hr : Reachable g s) :
    (next g s).isSome ∧ s.visit_node_segments.isSome ∧
      s.visit_nodes_with_info_and_root.isSome ∧ s.visit_root_nodes.isSome := by
  obtain ⟨_, hS, _, _⟩ := reachable_inv g s hr
  have hfacts := structok_mem_facts s.nodes hS
  refine ⟨next_isSome g s, ?_, ?_, ?_⟩
  · obtain ⟨out, hout⟩ := segmentsAux_total s.nodes s.nodes
      (fun nd hmem => ⟨(hfacts nd hmem).1, (hfacts nd hmem).2.1⟩)
    unfold SpaceColonization.visit_node_segments
    rw [hout]
    rfl
  · obtain ⟨out, hout⟩ := infoRootAux_total s.nodes s.nodes
      (fun nd hmem => ⟨(hfacts nd hmem).1, (hfacts nd hmem).2.2⟩)
    unfold SpaceColonization.visit_nodes_with_info_and_root
    rw [hout]
    rfl
  · obtain ⟨out, hout⟩ := rootsAux_total s.nodes (fun nd hmem => (hfacts nd hmem).1)
    unfold SpaceColonization.visit_root_nodes
    rw [hout]
    rfl

/-- Witness for C10 at the reachable one-root engine. -/
theorem C10_no_panics_witness :
    (next zgeo sRoot1).isSome ∧ sRoot1.visit_node_segments.isSome ∧
      sRoot1.visit_nodes_with_info_and_root.isSome ∧ sRoot1.visit_root_nodes.isSome :=
  C10_no_panics zgeo sRoot1 reachable_sRoot1

/-- C4 counterexample: in `sDisable` the `DisableFor(1)` attractor makes
contact during the step with counter 0 and gets
`active_from_iteration = 1`; the claim says it is excluded from the scan
for the next `k = 1` calls, but on the very next call (counter 1) it is
scanned and re-contacted, bumping `active_from_iteration` to 2. -/
theorem C4_disable_cex :
    Reachable zgeo sDisable ∧
    sDisable.next_iteration = 0 ∧
    (next zgeo sDisable).map
      (fun r => r.2.attractors.map (fun a => a.active_from_iteration)) = some [1] ∧
    ((next zgeo sDisable).bind (fun r => (next zgeo r.2).map
      (fun r2 => r2.2.attractors.map (fun a => a.active_from_iteration)))) = some [2] :=
  ⟨reachable_sDisable, rfl, by decide, by decide⟩

/-- C4 (amended): when a `DisableFor(k)` attractor makes contact during
the step whose counter is `t`, its `active_from_iteration` is set to
`t + k`; each step increments the counter by one, and an attractor with
`active_from_iteration = t + k` is scanned at counter `t + jc` exactly
when `k ≤ jc` — so it is excluded from the scan for the next `k - 1`
calls to step and is scanned again on the `k`-th. -/
theorem C4_disable_semantics {S P F I : Type} [LinearOrder S] [One S] (g : Geometry S P F)
    (ap : Attractor S P I) (max_length max_branches t start_index ap_idx k : ℕ)
    (attractors : List (Attractor S P I)) (nodes : List (Node P F I)) (j : ℕ)
    (cnode : Node P F I)
    (hap : attractors[ap_idx]? = some ap)
    (hact : ap.is_active_in t = true)
    (hscan : scanLoop g ap max_length max_branches (nodes.drop start_index) 0 none
      ap.attract_dist = ScanOut.connect j cnode)
    (haction : ap.connect_action = ConnectAction.disableFor k) :
    ((processAttractor g max_length max_branches t start_index ap_idx attractors
      nodes).attractors)[ap_idx]? = some (ap.disable_until (t + k)) ∧
    (∀ jc : ℕ, (ap.disable_until (t + k)).is_active_in (t + jc) = decide (k ≤ jc)) ∧
    (∀ (s s' : SpaceColonization S P F I) (n : ℕ), next g s = some (n, s') →
      s'.next_iteration = s.next_iteration + 1) := by
  refine ⟨?_, ?_, ?_⟩
  · rw [processAttractor_connect_disable g max_length max_branches t start_index ap_idx
      attractors nodes ap j cnode k hap hact hscan haction]
    exact List.getElem?_set_self (List.getElem?_eq_some.mp hap).1
  · intro jc
    unfold Attractor.disable_until Attractor.is_active_in
    simp [Nat.add_le_add_iff_left]
  · intro s s' n h
    obtain ⟨nodes2, _, _, hs'⟩ := next_char g s s' n h
    rw [hs']

/-- Witness for C4 (amended) in the `sDisable` scenario: the attractor at
slot 0 contacts the root at counter 0, and the three conjuncts apply. -/
theorem C4_disable_semantics_witness :
    ((processAttractor zgeo 10 10 0 0 0 sDisable.attractors
      sDisable.nodes).attractors)[0]? = some (apDisable.disable_until (0 + 1)) ∧
    (∀ jc : ℕ, (apDisable.disable_until (0 + 1)).is_active_in (0 + jc) = decide (1 ≤ jc)) ∧
    (∀ (s s' : SpaceColonization ℤ ℤ ℤ ℕ) (n : ℕ), next zgeo s = some (n, s') →
      s'.next_iteration = s.next_iteration + 1) :=
  C4_disable_semantics zgeo apDisable 10 10 0 0 0 1 sDisable.attractors sDisable.nodes 0
    ⟨0, 0, 0, 0, 0, 0, 0, none⟩ rfl rfl rfl rfl

/-- C6: on a `Kill` contact, the attractor slot is swap-removed (exactly
one attractor, the contacted one, leaves the collection — the result plus
that attractor is a permutation of the old collection and is one shorter),
the loop index is not advanced, and the loop re-processes the same slot
against the shrunk collection, in which the killed attractor no longer
occurs. -/
theorem C6_kill_swap_remove {S P F I : Type} [LinearOrder S] (g : Geometry S P F)
    (ap : Attractor S P I) (max_length max_branches cur start_index ap_idx counter : ℕ)
    (attractors : List (Attractor S P I)) (nodes : List (Node P F I)) (j : ℕ)
    (cnode : Node P F I)
    (hap : attractors[ap_idx]? = some ap)
    (hact : ap.is_active_in cur = true)
    (hscan : scanLoop g ap max_length max_branches (nodes.drop start_index) 0 none
      ap.attract_dist = ScanOut.connect j cnode)
    (haction : ap.connect_action = ConnectAction.killAttractor) :
    processAttractor g max_length max_branches cur start_index ap_idx attractors nodes =
      ⟨false, swapRemove attractors ap_idx,
        nodes.set (start_index + j) (cnode.transmit_information ap.information)⟩ ∧
    (swapRemove attractors ap_idx).length + 1 = attractors.length ∧
    (ap :: swapRemove attractors ap_idx).Perm attractors ∧
    attractorLoop g max_length max_branches cur start_index (counter + 1) ap_idx attractors
        nodes =
      attractorLoop g max_length max_branches cur start_index counter ap_idx
        (swapRemove attractors ap_idx)
        (nodes.set (start_index + j) (cnode.transmit_information ap.information)) := by
  have hlt : ap_idx < attractors.length := (List.getElem?_eq_some.mp hap).1
  have hne : attractors ≠ [] := by
    intro hcon
    rw [hcon] at hlt
    simp at hlt
  have hkill := processAttractor_connect_kill g max_length max_branches cur start_index
    ap_idx attractors nodes ap j cnode hap hact hscan haction
  refine ⟨hkill, ?_, ?_, ?_⟩
  · rw [swapRemove_length attractors ap_idx hne]
    omega
  · exact swapRemove_perm attractors ap_idx ap hap
  · rw [attractorLoop_succ_lt g max_length max_branches cur start_index counter ap_idx
      attractors nodes hlt, hkill]
    rfl

/-- Witness for C6 in the `sKill` scenario: the kill contact at slot 0. -/
theorem C6_kill_swap_remove_witness :
    processAttractor zgeo 10 10 0 0 0 sKill.attractors sKill.nodes =
      ⟨false, swapRemove sKill.attractors 0,
        sKill.nodes.set (0 + 0)
          ((⟨0, 0, 0, 0, 0, 0, 0, some 10⟩ : Node ℤ ℤ ℕ).transmit_information
            apKill.information)⟩ ∧
    (swapRemove sKill.attractors 0).length + 1 = sKill.attractors.length ∧
    (apKill :: swapRemove sKill.attractors 0).Perm sKill.attractors ∧
    attractorLoop zgeo 10 10 0 0 1 0 sKill.attractors sKill.nodes =
      attractorLoop zgeo 10 10 0 0 0 0 (swapRemove sKill.attractors 0)
        (sKill.nodes.set (0 + 0)
          ((⟨0, 0, 0, 0, 0, 0, 0, some 10⟩ : Node ℤ ℤ ℕ).transmit_information
            apKill.information)) :=
  C6_kill_swap_remove zgeo apKill 10 10 0 0 0 0 sKill.attractors sKill.nodes 0
    ⟨0, 0, 0, 0, 0, 0, 0, some 10⟩ rfl rfl rfl rfl

/-- C8 counterexample: in the reachable engine `sKill` the root node's
payload is already `some 10` at insertion time (set by
`add_root_node_with_information`, not by a connect), and the `Kill`
contact of the first step overwrites it with the attractor's different
payload `some 20` — so the payload is neither set only by a connect nor
set at most once. -/
theorem C8_payload_cex :
    Reachable zgeo sKill ∧
    sKill.nodes.map (fun nd => nd.assigned_information) = [some 10] ∧
    (next zgeo sKill).map (fun r => r.2.nodes.map (fun nd => nd.assigned_information)) =
      some [some 20] :=
  ⟨reachable_sKill, rfl, by decide⟩

/-- C8 (amended): a node's `assigned_payload` is written in exactly two
places — root insertion stores the caller's optional initial payload (and
leaves all existing nodes untouched), and a connect overwrites the
contacted node's payload with the connecting attractor's payload (even if
it was already `Some`); an attractor that makes no contact changes no
payload, and the spawn pass preserves every existing payload and creates
leaves with no payload. -/
theorem C8_payload_semantics {S P F I : Type} [LinearOrder S] [One S] (g : Geometry S P F) :
    (∀ (s : SpaceColonization S P F I) (pos : P) (info : Option I),
      (((s.add_root_node_with_information g pos info).2.nodes).map
        (fun nd => nd.assigned_information))[s.nodes.length]? = some info ∧
      ∀ j : ℕ, j < s.nodes.length →
        ((s.add_root_node_with_information g pos info).2.nodes)[j]? = s.nodes[j]?) ∧
    (∀ (max_length max_branches cur start_index ap_idx : ℕ)
      (attractors : List (Attractor S P I)) (nodes : List (Node P F I))
      (ap : Attractor S P I) (j : ℕ) (cnode : Node P F I),
      attractors[ap_idx]? = some ap → ap.is_active_in cur = true →
      scanLoop g ap max_length max_branches (nodes.drop start_index) 0 none ap.attract_dist =
        ScanOut.connect j cnode →
      (processAttractor g max_length max_branches cur start_index ap_idx attractors
        nodes).nodes =
        nodes.set (start_index + j) (cnode.transmit_information ap.information) ∧
      (cnode.transmit_information ap.information).assigned_information =
        some ap.information) ∧
    (∀ (max_length max_branches cur start_index ap_idx : ℕ)
      (attractors : List (Attractor S P I)) (nodes : List (Node P F I))
      (ap : Attractor S P I),
      attractors[ap_idx]? = some ap → ap.is_active_in cur = true →
      (∀ (j : ℕ) (cnode : Node P F I),
        scanLoop g ap max_length max_branches (nodes.drop start_index) 0 none
          ap.attract_dist ≠ ScanOut.connect j cnode) →
      ((processAttractor g max_length max_branches cur start_index ap_idx attractors
        nodes).nodes).map (fun nd => nd.assigned_information) =
        nodes.map (fun nd => nd.assigned_information)) ∧
    (∀ (count i : ℕ) (nodes nodes2 : List (Node P F I)) (md : S),
      spawnLoop g md count i nodes = some nodes2 →
      (∀ j : ℕ, j < nodes.length →
        (nodes2[j]?).map (fun nd => nd.assigned_information) =
          (nodes[j]?).map (fun nd => nd.assigned_information)) ∧
      (∀ (j : ℕ) (ndj : Node P F I), nodes.length ≤ j → nodes2[j]? = some ndj →
        ndj.assigned_information = none)) := by
  refine ⟨?_, ?_, ?_, ?_⟩
  · intro s pos info
    have hdef : (s.add_root_node_with_information g pos info).2.nodes =
        s.nodes ++
          [({ parent := s.nodes.length
              root := s.nodes.length
              length := 0
              branches := 0
              position := pos
              growth := g.zeroF
              growth_count := 0
              assigned_information := info } : Node P F I)] := rfl
    constructor
    · rw [hdef, List.map_append]
      simp only [List.map_cons, List.map_nil]
      rw [append_singleton_getElem, if_pos (by rw [List.length_map])]
    · intro j hj
      rw [hdef, append_singleton_getElem, if_neg (by omega)]
  · intro max_length max_branches cur start_index ap_idx attractors nodes ap j cnode hap
      hact hscan
    refine ⟨?_, rfl⟩
    cases haction : ap.connect_action with
    | killAttractor =>
      rw [processAttractor_connect_kill g max_length max_branches cur start_index ap_idx
        attractors nodes ap j cnode hap hact hscan haction]
    | disableFor k =>
      rw [processAttractor_connect_disable g max_length max_branches cur start_index ap_idx
        attractors nodes ap j cnode k hap hact hscan haction]
    | disableForConnectingRoot =>
      rw [processAttractor_connect_disable_root g max_length max_branches cur start_index
        ap_idx attractors nodes ap j cnode hap hact hscan haction]
  · intro max_length max_branches cur start_index ap_idx attractors nodes ap hap hact hnc
    cases hscan : scanLoop g ap max_length max_branches (nodes.drop start_index) 0 none
        ap.attract_dist with
    | connect j cnode => exact absurd hscan (hnc j cnode)
    | nearest j nnode =>
      rw [processAttractor_nearest g max_length max_branches cur start_index ap_idx
        attractors nodes ap j nnode hap hact hscan]
      exact map_set_congr (fun nd => nd.assigned_information) nodes (start_index + j) nnode _
        (nearest_mem_of_scan g max_length max_branches start_index ap nodes j nnode hscan).1
        rfl
    | nothing =>
      rw [processAttractor_nothing g max_length max_branches cur start_index ap_idx
        attractors nodes ap hap hact hscan]
  · intro count i nodes nodes2 md hsp
    exact spawnLoop_info g md count i nodes nodes2 hsp

/-- Witness for C8 (amended): the connect conjunct applied in the `sKill`
scenario. -/
theorem C8_payload_semantics_witness :
    (processAttractor zgeo 10 10 0 0 0 sKill.attractors sKill.nodes).nodes =
      sKill.nodes.set (0 + 0)
        ((⟨0, 0, 0, 0, 0, 0, 0, some 10⟩ : Node ℤ ℤ ℕ).transmit_information
          apKill.information) ∧
    ((⟨0, 0, 0, 0, 0, 0, 0, some 10⟩ : Node ℤ ℤ ℕ).transmit_information
      apKill.information).assigned_information = some apKill.information :=
  (C8_payload_semantics zgeo).2.1 10 10 0 0 0 sKill.attractors sKill.nodes apKill 0
    ⟨0, 0, 0, 0, 0, 0, 0, some 10⟩ rfl rfl rfl

end SpaceCol
